import Mathlib

/-!
Verification of the Bulk Sync & Incremental Diff Engine of the
shopify-multi-country-feed repository.

The Python sources are shallowly embedded as executable Lean definitions:

* dictionaries keyed by strings become association lists
  (`List (κ × α)`) with Python-dict semantics (insert keeps the original
  position of a key, a fresh key is appended at the end);
* the `country_inventory` dictionary of
  `shopify_client/product_loader.py`, whose Python keys are the strings
  `f"{variant_gid}-{country_code}"`, is keyed by the pair
  `(variant_gid, country_code)`; the code recovers the country code with
  `key.split('-')[-1]`, which agrees with the pair projection because
  Shopify variant gids contain no `-` and ISO country codes contain no
  `-`;
* machine/JSON integers become `Int` (`_safe_int` applied to an actual
  integer is the identity on the values relevant here);
* fallible phases of the orchestrator become `Except String`-valued
  inputs, and the bulk JSONL stream becomes a list of line outcomes
  (well-formed record, blank, JSON-malformed, undecodable bytes), which
  is exactly the granularity at which `load_products_from_bulk_jsonl`
  branches.
-/

namespace FeedSync

/-! ## Association lists with Python-dict semantics -/

/-- First binding of key `k`, as `dict.get(k)`.  Python dictionaries have
unique keys; on lists with duplicate keys this is the first binding. -/
def assocFind {κ α : Type} [DecidableEq κ] : List (κ × α) → κ → Option α
  | [], _ => none
  | (k', v) :: rest, k => if k' = k then some v else assocFind rest k

/-- `d[k] = v` on a Python dict: replace the first binding of `k` in
place, or append a fresh binding at the end. -/
def assocSet {κ α : Type} [DecidableEq κ] : List (κ × α) → κ → α → List (κ × α)
  | [], k, v => [(k, v)]
  | (k', v') :: rest, k, v =>
    if k' = k then (k', v) :: rest else (k', v') :: assocSet rest k v

/-- `d[k] = d.get(k, 0) + q` on a Python dict with integer values. -/
def assocBump {κ : Type} [DecidableEq κ] : List (κ × Int) → κ → Int → List (κ × Int)
  | [], k, q => [(k, q)]
  | (k', v) :: rest, k, q =>
    if k' = k then (k', v + q) :: rest else (k', v) :: assocBump rest k q

/-- `d.get(k, 0)`. -/
def assocQty {κ : Type} [DecidableEq κ] (d : List (κ × Int)) (k : κ) : Int :=
  (assocFind d k).getD 0

/-! ## Shared string helpers of the Python sources -/

/-- Helper for `str.split(sep)` with a one-character separator:
accumulates the current segment (reversed) while walking the
characters. -/
def splitCharsAux (sep : Char) : List Char → List Char → List (List Char)
  | [], cur => [cur.reverse]
  | c :: rest, cur =>
    if c = sep then cur.reverse :: splitCharsAux sep rest []
    else splitCharsAux sep rest (c :: cur)

/-- Python `s.split(sep)` for a one-character separator (the sources
only split on `'/'` and `'-'`). -/
def splitOnChar (sep : Char) (s : String) : List String :=
  (splitCharsAux sep s.data []).map String.mk

/-- `sep.join(parts)` for a one-character separator. -/
def joinCharsAux (sep : Char) : List (List Char) → List Char
  | [] => []
  | [a] => a
  | a :: b :: rest => a ++ sep :: joinCharsAux sep (b :: rest)

def joinWithChar (sep : Char) (parts : List String) : String :=
  String.mk (joinCharsAux sep (parts.map String.data))

/-- `s.split('/')[-1]`: the segment after the last slash (used to turn a
Shopify gid into its numeric id). -/
def lastSlashSegment (s : String) : String :=
  (splitOnChar '/' s).getLastD s

/-- `composite_id.rsplit("-", 1)[0]` guarded by `"-" in composite_id`:
`CSVExporter._extract_shopify_variant_id` / `TSVExporter._extract_variant_id`. -/
def extractShopifyVariantId (compositeId : String) : String :=
  let parts := splitOnChar '-' compositeId
  if parts.length ≤ 1 then compositeId
  else joinWithChar '-' parts.dropLast

/-- `extract_size_from_sku` of `product_loader.py`: second `-`-separated
part of the SKU, else `"Unknown"`. -/
def extractSizeFromSku (sku : String) : String :=
  (splitOnChar '-' sku).getD 1 "Unknown"

/-! ## StateManager (`state_management/state_manager.py`) -/

/-- One emitted country variant: the dictionary built by
`ProductLoader._create_country_variant_from_bulk`.  `description`,
`featured image` and `size` fields carry no verified claim and are
omitted; missing string fields are `""` as in the Python `get(..., "")`
defaults. -/
structure CountryVariant where
  id : String
  shopify_variant_id : String
  country_code : String
  country_name : String
  inventory_quantity : Int
  sku : String
  price : String
  updated_at : String
  product_id : String
  product_title : String
  product_handle : String
  deriving DecidableEq, Repr

/-- Persisted per-key state: one value of the `variant_states` JSON map. -/
structure VariantState where
  stock_status : String
  last_updated : String
  deriving DecidableEq, Repr

/-- The availability string computed throughout the code base:
`"in stock" if inventory_qty > 0 else "out of stock"`. -/
def stockStatus (qty : Int) : String :=
  if qty > 0 then "in stock" else "out of stock"

/-- The `variant_lookup` dict of `StateManager.detect_stock_changes`:
variants without an id are dropped, later occurrences of an id
overwrite earlier ones. -/
def buildVariantLookup (current : List CountryVariant) : List (String × CountryVariant) :=
  current.foldl
    (fun acc v => if v.id = "" then acc else assocSet acc v.id v) []

/-- `StateManager.detect_stock_changes`, with the persisted variant-state
file passed explicitly.  Returns `(new_variants, changed_variants)`. -/
def detectStockChanges (states : List (String × VariantState))
    (current : List CountryVariant) : List CountryVariant × List CountryVariant :=
  if current = [] then ([], [])
  else
    let lookup := buildVariantLookup current
    (lookup.filterMap (fun p =>
        if assocFind states p.1 = none then some p.2 else none),
     lookup.filterMap (fun p =>
        match assocFind states p.1 with
        | some st =>
          if st.stock_status ≠ stockStatus p.2.inventory_quantity then some p.2 else none
        | none => none))

/-- `StateManager.update_variant_states`, with the persisted state passed
and returned explicitly; `ts` is the fresh timestamp string. -/
def updateVariantStates (states : List (String × VariantState))
    (variants : List CountryVariant) (ts : String) : List (String × VariantState) :=
  if variants = [] then states
  else
    variants.foldl
      (fun st v =>
        if v.id = "" then st
        else assocSet st v.id
          { stock_status := stockStatus v.inventory_quantity, last_updated := ts })
      states

/-! ## ProductLoader (`shopify_client/product_loader.py`) -/

/-- Embedded product payload of a variant record (`record['product']`).
Only the fields read by `_create_country_variant_from_bulk` and claimed
by the spec are kept. -/
structure ProductData where
  id : String
  title : String
  handle : String
  deriving DecidableEq, Repr

/-- A quantity entry of an inventory-level record
(`{'name': ..., 'quantity': ...}`). -/
structure QuantityEntry where
  name : String
  quantity : Int
  deriving DecidableEq, Repr

/-- One parsed line of the bulk JSONL export.  `id`/`parentId` are `""`
when absent (`record.get('id', '')`).  `location` is
`record['location']['id']` when the record carries a `location` key and
`quantities` the list under its `quantities` key; `none` when the key is
absent.  `inventoryItemSku` is `record['inventoryItem']['sku']`, `""`
when absent or null. -/
structure BulkRecord where
  id : String
  parentId : String
  product : Option ProductData
  inventoryItemSku : String
  price : String
  updatedAt : String
  location : Option String
  quantities : Option (List QuantityEntry)
  deriving DecidableEq, Repr

/-- `pat` is a prefix of `s` (on characters). -/
def startsWithChars : List Char → List Char → Bool
  | [], _ => true
  | _ :: _, [] => false
  | p :: ps, c :: cs => p = c && startsWithChars ps cs

def substrOccursChars (pat : List Char) : List Char → Bool
  | [] => decide (pat = [])
  | c :: rest => startsWithChars pat (c :: rest) || substrOccursChars pat rest

/-- `pat` occurs as a substring of `s` (Python `pat in s`). -/
def substrOccurs (pat s : String) : Bool :=
  substrOccursChars pat.data s.data

/-- The three accumulation dictionaries of
`ProductLoader.load_products_from_bulk_jsonl`. -/
structure GraphState where
  products : List (String × ProductData)
  variants : List (String × BulkRecord)
  inventoryLevels : List (String × List BulkRecord)
  deriving DecidableEq, Repr

def emptyGraph : GraphState := ⟨[], [], []⟩

/-- Append `r` to `inventory_levels[parentId]`, creating the list when
the key is fresh. -/
def appendLevel (levels : List (String × List BulkRecord)) (parentId : String)
    (r : BulkRecord) : List (String × List BulkRecord) :=
  match assocFind levels parentId with
  | some ls => assocSet levels parentId (ls ++ [r])
  | none => assocSet levels parentId [r]

/-- `ProductLoader._process_bulk_record`.  Top-level records are variants
(`'ProductVariant' in id`, checked first because such ids also contain
`'Product'`) or standalone products; child records with `location` and
`quantities` keys are inventory levels; other child records that look
like variants are stored as variants. -/
def processBulkRecord (st : GraphState) (r : BulkRecord) : GraphState :=
  if r.id ≠ "" ∧ r.parentId = "" then
    if substrOccurs "ProductVariant" r.id then
      let st := { st with variants := assocSet st.variants r.id r }
      match r.product with
      | some p => if p.id ≠ "" then { st with products := assocSet st.products p.id p } else st
      | none => st
    else if substrOccurs "Product" r.id then
      { st with products :=
          assocSet st.products r.id ⟨r.id, "", ""⟩ }
    else st
  else if r.parentId ≠ "" then
    if r.location.isSome ∧ r.quantities.isSome then
      { st with inventoryLevels := appendLevel st.inventoryLevels r.parentId r }
    else if r.id ≠ "" ∧ substrOccurs "ProductVariant" r.id then
      { st with variants := assocSet st.variants r.id r }
    else st
  else st

/-- Outcome of reading one line of the JSONL stream.  `blank` lines are
skipped, `invalidJson` raises `json.JSONDecodeError` inside the per-line
handler, `undecodable` models a line whose bytes are not valid UTF-8:
iterating the file raises `UnicodeDecodeError` there, which only the
outer `except Exception` handler catches. -/
inductive BulkLine
  | blank
  | invalidJson
  | record (r : BulkRecord)
  | undecodable
  deriving DecidableEq, Repr

/-- The parsing loop of `load_products_from_bulk_jsonl`: `none` when the
stream aborts with a non-JSON exception (outer handler). -/
def processLines : List BulkLine → GraphState → Option GraphState
  | [], st => some st
  | .blank :: rest, st => processLines rest st
  | .invalidJson :: rest, st => processLines rest st
  | .record r :: rest, st => processLines rest (processBulkRecord st r)
  | .undecodable :: _, _ => none

/-- `level.get('quantities', [])` scanned for the first entry named
`available` (`break` at the first hit), defaulting to `0`. -/
def availableQty (quantities : List QuantityEntry) : Int :=
  match quantities.find? (fun q => q.name = "available") with
  | some q => q.quantity
  | none => 0

/-- Value type of the `active_countries` dictionary. -/
structure CountryInfo where
  name : String
  market_id : String
  deriving DecidableEq, Repr

/-- Value type of the `location_country_map` dictionary. -/
structure LocationEntry where
  name : String
  countries : List String
  deriving DecidableEq, Repr

/-- Inner loop of the `country_inventory` accumulation of
`_build_country_variants_from_bulk` for one inventory-level record:
only a positive `available` quantity at a known, mapped location is
attributed, to every served country that is also active. -/
def addLevelInventory (active : List (String × CountryInfo))
    (locMap : List (String × LocationEntry)) (variantId : String)
    (inv : List ((String × String) × Int)) (level : BulkRecord) :
    List ((String × String) × Int) :=
  let locationGid := level.location.getD ""
  if locationGid = "" then inv
  else
    let locationId := lastSlashSegment locationGid
    let qty := availableQty (level.quantities.getD [])
    match assocFind locMap locationId with
    | some entry =>
      if qty > 0 then
        entry.countries.foldl
          (fun inv2 c =>
            if (assocFind active c).isSome then assocBump inv2 (variantId, c) qty else inv2)
          inv
      else inv
    | none => inv

/-- The full `country_inventory` dictionary, keyed by
`(variant_gid, country_code)` (see the file header). -/
def buildCountryInventory (inventoryLevels : List (String × List BulkRecord))
    (active : List (String × CountryInfo)) (locMap : List (String × LocationEntry)) :
    List ((String × String) × Int) :=
  inventoryLevels.foldl
    (fun inv p => p.2.foldl (addLevelInventory active locMap p.1) inv) []

/-- `countries_with_inventory` / `target_countries`: the countries whose
summed quantity is positive for at least one variant, in first-appearance
order (the Python code materialises a set; only membership matters). -/
def countriesWithInventory (inv : List ((String × String) × Int)) : List String :=
  inv.foldl
    (fun acc p => if p.2 > 0 ∧ p.1.2 ∉ acc then acc ++ [p.1.2] else acc) []

/-- `ProductLoader._create_country_variant_from_bulk`. -/
def createCountryVariantFromBulk (variantData : BulkRecord) (productData : ProductData)
    (countryCode : String) (variantGid : String)
    (countryInventory : List ((String × String) × Int))
    (active : List (String × CountryInfo)) : CountryVariant :=
  let numericVariantId := lastSlashSegment variantGid
  { id := numericVariantId ++ "-" ++ countryCode
    shopify_variant_id := numericVariantId
    country_code := countryCode
    country_name := ((assocFind active countryCode).map (·.name)).getD ""
    inventory_quantity := assocQty countryInventory (variantGid, countryCode)
    sku := variantData.inventoryItemSku
    price := variantData.price
    updated_at := variantData.updatedAt
    product_id := if productData.id ≠ "" then lastSlashSegment productData.id else ""
    product_title := productData.title
    product_handle := productData.handle }

/-- `ProductLoader._build_country_variants_from_bulk`: one pass over the
variants dictionary crossed with the target countries; variants without a
SKU are skipped (after the country variant is built, as in the source). -/
def buildCountryVariantsFromBulk (variants : List (String × BulkRecord))
    (inventoryLevels : List (String × List BulkRecord))
    (active : List (String × CountryInfo)) (locMap : List (String × LocationEntry)) :
    List CountryVariant :=
  let countryInventory := buildCountryInventory inventoryLevels active locMap
  let targetCountries := countriesWithInventory countryInventory
  variants.foldl
    (fun acc p =>
      targetCountries.foldl
        (fun acc2 c =>
          if (assocFind active c).isNone then acc2
          else
            let cv := createCountryVariantFromBulk p.2 (p.2.product.getD ⟨"", "", ""⟩)
              c p.1 countryInventory active
            if p.2.inventoryItemSku = "" then acc2 else acc2 ++ [cv])
        acc)
    []

/-- `ProductLoader.load_products_from_bulk_jsonl` on an already-opened
stream of line outcomes: parse every line (returning `[]` from the outer
exception handler when a line is undecodable), then build the country
variants. -/
def loadProductsFromBulkJsonl (lines : List BulkLine)
    (active : List (String × CountryInfo)) (locMap : List (String × LocationEntry)) :
    List CountryVariant :=
  match processLines lines emptyGraph with
  | none => []
  | some st => buildCountryVariantsFromBulk st.variants st.inventoryLevels active locMap

/-- A single inventory-level fact sits at a known, mapped location that
serves `countryCode`. -/
def levelServes (locMap : List (String × LocationEntry)) (countryCode : String)
    (level : BulkRecord) : Bool :=
  let locationGid := level.location.getD ""
  locationGid ≠ "" &&
    (match assocFind locMap (lastSlashSegment locationGid) with
     | some entry => entry.countries.contains countryCode
     | none => false)

/-- Spec-side definition (claim C5 wording): the quantity attributed to a
`(variant, country)` pair is the sum of `available` quantities over all
of the variant's inventory-level facts whose location is a known, mapped
location serving that country.  Unlike the code it does not require the
quantities to be positive. -/
def specAttributedQty (inventoryLevels : List (String × List BulkRecord))
    (locMap : List (String × LocationEntry)) (variantGid countryCode : String) : Int :=
  (((assocFind inventoryLevels variantGid).getD []).map
    (fun level =>
      if levelServes locMap countryCode level then
        availableQty (level.quantities.getD [])
      else 0)).sum

/-- Code-side sum that `buildCountryInventory` is proved to realise: as
`specAttributedQty`, but a fact contributes only when its `available`
quantity is positive and the served country is active. -/
def positiveAttributedQty (inventoryLevels : List (String × List BulkRecord))
    (locMap : List (String × LocationEntry)) (active : List (String × CountryInfo))
    (variantGid countryCode : String) : Int :=
  (((assocFind inventoryLevels variantGid).getD []).map
    (fun level =>
      if levelServes locMap countryCode level ∧ (assocFind active countryCode).isSome then
        let qty := availableQty (level.quantities.getD [])
        if qty > 0 then qty else 0
      else 0)).sum

/-- Contribution of one inventory-level record to the
`country_inventory` key `k`, as realised by `addLevelInventory`. -/
def levelContrib (active : List (String × CountryInfo))
    (locMap : List (String × LocationEntry)) (variantId : String) (level : BulkRecord)
    (k : String × String) : Int :=
  if k.1 = variantId ∧ levelServes locMap k.2 level ∧ (assocFind active k.2).isSome then
    (if availableQty (level.quantities.getD []) > 0 then
      availableQty (level.quantities.getD []) else 0)
  else 0

/-- Number of inventory-level facts of a variant whose location is a
known, mapped location serving the given country (spec wording: the
variant's serving locations in that country). -/
def servingFactCount (inventoryLevels : List (String × List BulkRecord))
    (locMap : List (String × LocationEntry)) (variantGid countryCode : String) : Nat :=
  (((assocFind inventoryLevels variantGid).getD []).filter
    (levelServes locMap countryCode)).length

/-! ## CSVExporter (`output/csv_exporter.py`) -/

/-- One data row of a country CSV feed (columns `id`, `override`,
`availability`; the header row is implicit). -/
structure FeedRow where
  rowId : String
  override : String
  availability : String
  deriving DecidableEq, Repr

/-- A country code in the sense of the `^[A-Z]{2}$` patterns of
`_validate_variant_data` and `_extract_country_from_filename`. -/
def isCountryCode (s : String) : Bool :=
  s.length = 2 && s.data.all (fun c => 'A' ≤ c ∧ c ≤ 'Z')

/-- `CSVExporter._validate_variant_data`; `validationEnabled` is
`settings.ENABLE_DATA_VALIDATION` (the high-inventory check only logs). -/
def validateVariantData (validationEnabled : Bool) (v : CountryVariant) : Bool :=
  if !validationEnabled then true
  else
    v.id ≠ "" && v.country_code ≠ "" && v.inventory_quantity ≥ 0 &&
      isCountryCode v.country_code

/-- A variant counts toward `_get_current_countries` /
`_get_countries_to_update`: non-empty country code and product id, and it
passes validation. -/
def feedEligible (validationEnabled : Bool) (v : CountryVariant) : Bool :=
  v.country_code ≠ "" && v.product_id ≠ "" && validateVariantData validationEnabled v

/-- `CSVExporter._get_current_countries` (also
`_get_countries_to_update`, which is textually identical), in
first-appearance order (the Python code materialises a set; only
membership matters). -/
def getCurrentCountries (validationEnabled : Bool) (variants : List CountryVariant) :
    List String :=
  variants.foldl
    (fun acc v =>
      if feedEligible validationEnabled v ∧ v.country_code ∉ acc then
        acc ++ [v.country_code]
      else acc)
    []

/-- `CSVExporter._format_csv_row`: `None` when the extracted variant id
is empty. -/
def formatCsvRow (v : CountryVariant) (countryCode : String) : Option FeedRow :=
  let variantId := extractShopifyVariantId v.id
  if variantId = "" then none
  else some ⟨variantId, countryCode, stockStatus v.inventory_quantity⟩

/-- The rows of a freshly written country feed
(`_create_country_variant_generator` piped through validation and
`_format_csv_row` by `_create_country_feed_streaming`). -/
def fullFeedRows (validationEnabled : Bool) (variants : List CountryVariant)
    (countryCode : String) : List FeedRow :=
  variants.filterMap
    (fun v =>
      if v.country_code = countryCode ∧ v.product_id ≠ "" ∧
          validateVariantData validationEnabled v then
        formatCsvRow v countryCode
      else none)

/-- `CSVExporter._cleanup_orphaned_country_files` on the feed directory,
modelled as a map from country code to file rows.  Only files whose name
parses back to a two-letter country code are considered; a parsed
country absent from `currentCountries` is deleted. -/
def cleanupOrphanedCountryFiles (currentCountries : List String)
    (files : List (String × List FeedRow)) : List (String × List FeedRow) :=
  files.filter (fun f => !(isCountryCode f.1 && f.1 ∉ currentCountries))

/-- `CSVExporter.create_country_feeds_full`: on a non-empty variant list,
delete orphaned country files, then write one complete feed per current
country.  Returns the written countries and the resulting directory. -/
def createCountryFeedsFull (validationEnabled : Bool) (variants : List CountryVariant)
    (files : List (String × List FeedRow)) :
    List String × List (String × List FeedRow) :=
  if variants = [] then ([], files)
  else
    let currentCountries := getCurrentCountries validationEnabled variants
    let files1 := cleanupOrphanedCountryFiles currentCountries files
    (currentCountries,
     currentCountries.foldl
       (fun fs c => assocSet fs c (fullFeedRows validationEnabled variants c)) files1)

/-- `CSVExporter._update_country_feed_streaming` as a transformation of
one country's file content (`none` = the file does not exist): untouched
when the country has no new or changed variants, otherwise existing rows
of this country are kept, rows whose id appears in the change lookup get
the fresh availability, and valid new variants are appended. -/
def updateCountryFeedStreaming (validationEnabled : Bool)
    (newVariants changedVariants : List CountryVariant) (countryCode : String)
    (existing : Option (List FeedRow)) : Option (List FeedRow) :=
  let countryNew := newVariants.filter (fun v => v.country_code = countryCode)
  let countryChanged := changedVariants.filter (fun v => v.country_code = countryCode)
  if countryNew = [] ∧ countryChanged = [] then existing
  else
    let changeLookup := countryChanged.foldl
      (fun lk v =>
        let variantId := extractShopifyVariantId v.id
        if variantId = "" then lk
        else assocSet lk variantId (stockStatus v.inventory_quantity))
      []
    let keptRows := ((existing.getD []).filter (fun r => r.override = countryCode)).map
      (fun r =>
        match assocFind changeLookup r.rowId with
        | some availability => ⟨r.rowId, countryCode, availability⟩
        | none => ⟨r.rowId, countryCode, r.availability⟩)
    let appended := countryNew.filterMap
      (fun v =>
        if validateVariantData validationEnabled v then formatCsvRow v countryCode else none)
    some (keptRows ++ appended)

/-- `CSVExporter.update_country_feeds_incremental` on the feed
directory: one `_update_country_feed_streaming` pass per country that has
eligible new or changed variants. -/
def updateCountryFeedsIncremental (validationEnabled : Bool)
    (newVariants changedVariants : List CountryVariant)
    (files : List (String × List FeedRow)) : List (String × List FeedRow) :=
  if newVariants = [] ∧ changedVariants = [] then files
  else
    let countriesToUpdate :=
      getCurrentCountries validationEnabled (newVariants ++ changedVariants)
    countriesToUpdate.foldl
      (fun fs c =>
        match updateCountryFeedStreaming validationEnabled newVariants changedVariants c
            (assocFind fs c) with
        | some rows => assocSet fs c rows
        | none => fs)
      files

/-- Composite Google Merchant row identifier built by
`TSVExporter.create_country_feeds_full` and `_apply_variant_changes`:
`f"shopify_US_{product_id}_{base_id}"` where `base_id` is the composite
variant-country id with its trailing `-{country}` stripped. -/
def googleCompositeRowId (v : CountryVariant) : String :=
  "shopify_US_" ++ v.product_id ++ "_" ++ extractShopifyVariantId v.id

/-! ## CountryLocationMapper (`mapping/country_location_mapper.py`) -/

/-- `CountryLocationMapper.get_mapping_with_change_detection`, reduced to
the change-detection decision: `smartEnabled` is
`settings.SMART_MAPPING_ENABLED`, `freshHash` the fingerprint of the
freshly built mapping, `storedHash` the content of the comparison file
(`none` when missing or unreadable).  Returns
`(has_changed, reason, comparison file after the call)`; the mapping
payload itself carries no claim. -/
def getMappingWithChangeDetection (smartEnabled : Bool) (freshHash : String)
    (storedHash : Option String) : Bool × String × Option String :=
  if !smartEnabled then (false, "Smart mapping disabled", storedHash)
  else
    let previousHash := storedHash.getD ""
    if previousHash = "" then
      (true, "No previous mapping found - first run", some freshHash)
    else if previousHash ≠ freshHash then
      (true, "Mapping structure changed - hash mismatch", some freshHash)
    else
      (false, "Mapping unchanged - hash match", some freshHash)

/-- `SyncOrchestrator._determine_smart_sync_strategy`: `true` = FULL.
The second component is the `since` timestamp of an incremental run. -/
def determineSmartSyncStrategy (mappingChanged : Bool) (lastSync : Option Int) :
    Bool × Option Int :=
  if mappingChanged then (true, none)
  else
    match lastSync with
    | none => (true, none)
    | some t => (false, some t)

/-- A character that `json.dumps` (with its default `ensure_ascii=True`)
serialises as itself inside a string literal: printable ASCII that is
neither the quote nor the backslash.  Country codes and numeric location
ids satisfy this. -/
def jsonPlainChar (c : Char) : Bool :=
  decide (c ≠ '\"' ∧ c ≠ '\\' ∧ 0x20 ≤ c.toNat ∧ c.toNat < 0x80)

def jsonPlainString (s : String) : Bool :=
  s.data.all jsonPlainChar

/-- `sorted(d.keys())` (Python sorts strings lexicographically by code
point, as Lean's `≤` on `String` does). -/
def sortedKeys {α : Type} (d : List (String × α)) : List String :=
  List.insertionSort (· ≤ ·) (d.map Prod.fst)

/-- JSON serialisation of a list of strings whose characters are plain
(`"a","b",...` — the element bodies themselves, unescaped). -/
def encodeJsonStringList : List (List Char) → List Char
  | [] => []
  | [a] => '\"' :: (a ++ ['\"'])
  | a :: b :: rest => '\"' :: (a ++ ['\"', ',']) ++ encodeJsonStringList (b :: rest)

/-- `CountryLocationMapper._generate_mapping_hash` (meta variant), up to
the final `hashlib.md5(...).hexdigest()`: the canonical `hash_string`
`json.dumps(\x7b"countries": sorted(active.keys()), "locations":
sorted(loc_map.keys()), "method": "bulk_operations"\x7d, sort_keys=True,
separators=(",", ":"))`, faithful on keys made of `jsonPlainChar`s.  The
md5 step is a fixed function of this string, so equal inputs give equal
fingerprints; the fingerprint is modelled as the md5 pre-image itself,
i.e. md5 is treated as collision-free.  (The google variant replaces the
constant `"method"` member by the sorted deployment-constant
`TARGET_COUNTRIES` list, which changes nothing below.) -/
def generateMappingHash (active : List (String × CountryInfo))
    (locMap : List (String × LocationEntry)) : List Char :=
  "\x7b\"countries\":[".data
    ++ encodeJsonStringList ((sortedKeys active).map String.data)
    ++ "],\"locations\":[".data
    ++ encodeJsonStringList ((sortedKeys locMap).map String.data)
    ++ "],\"method\":\"bulk_operations\"\x7d".data

/-! ## SyncOrchestrator (`orchestrator/sync_orchestrator.py`) -/

/-- The durable state touched by one run: the sync checkpoint
(`sync_state.json`), the per-key variant states
(`variant_states.json`), and the feed output directory. -/
structure OrchestratorState where
  checkpoint : Option Int
  variantStates : List (String × VariantState)
  files : List (String × List FeedRow)
  deriving DecidableEq, Repr

/-- Outcomes of the fallible external phases of a run, passed as inputs:
configuration validation, mapping change detection (its payload reduced
to `(mapping_changed, change_reason)`), the Shopify bulk fetch, and the
Drive upload.  A `.error` models the phase raising. -/
structure SmartRunEnv where
  configResult : Except String Unit
  mappingResult : Except String (Bool × String)
  fetchResult : Except String (List CountryVariant)
  uploadResult : Except String Nat

/-- `SyncOrchestrator._process_variants`: FULL resets the variant states
and writes complete feeds; INCREMENTAL diffs first and is a no-op when
nothing is new or changed (returning no created files and leaving the
states untouched). -/
def processVariantsStep (validationEnabled : Bool) (isFull : Bool)
    (variants : List CountryVariant) (st : OrchestratorState) (ts : String) :
    List String × OrchestratorState :=
  if isFull then
    let result := createCountryFeedsFull validationEnabled variants st.files
    (result.1,
     { st with files := result.2, variantStates := updateVariantStates [] variants ts })
  else
    let diff := detectStockChanges st.variantStates variants
    if diff.1 = [] ∧ diff.2 = [] then ([], st)
    else
      ((getCurrentCountries validationEnabled (diff.1 ++ diff.2)),
       { st with
          files := updateCountryFeedsIncremental validationEnabled diff.1 diff.2 st.files,
          variantStates := updateVariantStates st.variantStates variants ts })

/-- `SyncOrchestrator._run_smart_sync_with_detection`.  `now` is the
wall-clock time at entry (the saved checkpoint is `now - 5` seconds, as
in the source); `ts` is the timestamp string stamped into variant
states.  Returns the durable state after the run together with the
run's outcome (`.error` = the run raised). -/
def runSmartSyncWithDetection (env : SmartRunEnv) (validationEnabled : Bool)
    (st : OrchestratorState) (now : Int) (ts : String) :
    OrchestratorState × Except String Unit :=
  let syncTimestamp := now - 5
  match env.configResult with
  | .error e => (st, .error e)
  | .ok _ =>
    match env.mappingResult with
    | .error e => (st, .error e)
    | .ok mapping =>
      let strategy := determineSmartSyncStrategy mapping.1 st.checkpoint
      match env.fetchResult with
      | .error e => (st, .error e)
      | .ok variants =>
        if variants = [] then
          ({ st with checkpoint := some syncTimestamp }, .ok ())
        else
          let step := processVariantsStep validationEnabled strategy.1 variants st ts
          match env.uploadResult with
          | .error e => (step.2, .error e)
          | .ok _ => ({ step.2 with checkpoint := some syncTimestamp }, .ok ())

/-- `SyncOrchestrator._run_full_sync`: always a FULL pass; a run with no
variants returns without saving the checkpoint; `_upload_files` catches
its own exceptions, so the upload phase cannot abort this run. -/
def runFullSync (env : SmartRunEnv) (validationEnabled : Bool)
    (st : OrchestratorState) (now : Int) (ts : String) :
    OrchestratorState × Except String Unit :=
  let syncTimestamp := now - 5
  match env.configResult with
  | .error e => (st, .error e)
  | .ok _ =>
    match env.mappingResult with
    | .error e => (st, .error e)
    | .ok _ =>
      match env.fetchResult with
      | .error e => (st, .error e)
      | .ok variants =>
        if variants = [] then (st, .ok ())
        else
          let step := processVariantsStep validationEnabled true variants st ts
          ({ step.2 with checkpoint := some syncTimestamp }, .ok ())

/-- The silently-unchanged part of a diff (spec wording): variants whose
persisted availability matches the current one. -/
def unchangedVariants (states : List (String × VariantState))
    (current : List CountryVariant) : List CountryVariant :=
  current.filter
    (fun v =>
      match assocFind states v.id with
      | some st => st.stock_status = stockStatus v.inventory_quantity
      | none => false)

/-- The last element of `l` with id `k` (Python dict semantics: the
binding that survives repeated `d[k] = v`). -/
def lastOccurrence : List CountryVariant → String → Option CountryVariant
  | [], _ => none
  | v :: rest, k =>
    match lastOccurrence rest k with
    | some w => some w
    | none => if v.id = k then some v else none

/-! ## Concrete sample data (used by the closed witness and
counterexample theorems) -/

def sampleActive : List (String × CountryInfo) :=
  [("US", ⟨"United States", "gid://shopify/Market/1"⟩)]

def sampleLocMap : List (String × LocationEntry) :=
  [("7", ⟨"Main Warehouse", ["US"]⟩)]

def sampleLevel : BulkRecord :=
  ⟨"", "gid://shopify/ProductVariant/1", none, "", "", "",
    some "gid://shopify/Location/7", some [⟨"available", 5⟩]⟩

def sampleLevelNeg : BulkRecord :=
  ⟨"", "gid://shopify/ProductVariant/1", none, "", "", "",
    some "gid://shopify/Location/7", some [⟨"available", -3⟩]⟩

def sampleVariantRecord : BulkRecord :=
  ⟨"gid://shopify/ProductVariant/1", "",
    some ⟨"gid://shopify/Product/10", "Shirt", "shirt"⟩,
    "SKU-M-1", "10.00", "2024-01-01", none, none⟩

def sampleVariantRecord2 : BulkRecord :=
  ⟨"gid://shopify/ProductVariant/2", "",
    some ⟨"gid://shopify/Product/11", "Pants", "pants"⟩,
    "SKU-L-2", "12.00", "2024-01-02", none, none⟩

def sampleVariants : List (String × BulkRecord) :=
  [("gid://shopify/ProductVariant/1", sampleVariantRecord),
   ("gid://shopify/ProductVariant/2", sampleVariantRecord2)]

def sampleInventoryLevels : List (String × List BulkRecord) :=
  [("gid://shopify/ProductVariant/1", [sampleLevel])]

def sampleInventoryLevelsNeg : List (String × List BulkRecord) :=
  [("gid://shopify/ProductVariant/1", [sampleLevel, sampleLevelNeg])]

/-- The country variant the projection emits for the second sample
variant in country `US`, although that variant has no inventory facts at
all. -/
def sampleEmittedVariant : CountryVariant :=
  ⟨"2-US", "2", "US", "United States", 0, "SKU-L-2", "12.00", "2024-01-02",
    "11", "Pants", "pants"⟩

def sampleCountryVariant : CountryVariant :=
  ⟨"1-US", "1", "US", "United States", 5, "SKU-M-1", "10.00", "2024-01-01",
    "10", "Shirt", "shirt"⟩

/-- The same logical `(variant, country)` row in a later run with a
different quantity and timestamp. -/
def sampleCountryVariantRestock : CountryVariant :=
  ⟨"1-US", "1", "US", "United States", 0, "SKU-M-1", "10.00", "2024-01-03",
    "10", "Shirt", "shirt"⟩

def sampleStates : List (String × VariantState) :=
  [("1-US", ⟨"in stock", "t0"⟩)]

def sampleFiles : List (String × List FeedRow) :=
  [("US", [⟨"1", "US", "in stock"⟩]), ("DE", [⟨"2", "DE", "out of stock"⟩])]

def sampleGoodLines : List BulkLine :=
  [.record sampleVariantRecord, .record sampleLevel]

def sampleBadLines : List BulkLine :=
  [.record sampleVariantRecord, .undecodable, .record sampleLevel]

/-- A run whose configuration-validation phase raises. -/
def sampleFailEnv : SmartRunEnv :=
  ⟨.error "Configuration validation failed",
    .ok (false, "Mapping unchanged - hash match"), .ok [], .ok 0⟩

def sampleOrchState : OrchestratorState :=
  ⟨some 100, sampleStates, sampleFiles⟩

/-! ## Association-list lemmas -/

theorem assocFind_assocSet {κ α : Type} [DecidableEq κ] (l : List (κ × α)) (k : κ)
    (v : α) (k' : κ) :
    assocFind (assocSet l k v) k' = if k = k' then some v else assocFind l k' := by
  induction l with
  | nil => simp [assocSet, assocFind]
  | cons p rest ih =>
    obtain ⟨pk, pv⟩ := p
    by_cases hpk : pk = k
    · subst hpk
      by_cases hk' : pk = k'
      · subst hk'
        simp [assocSet, assocFind]
      · simp [assocSet, assocFind, hk']
    · by_cases hk' : pk = k'
      · subst hk'
        have hkp : ¬k = pk := fun h => hpk h.symm
        simp [assocSet, assocFind, hpk, hkp]
      · simp [assocSet, assocFind, hpk, hk', ih]

theorem assocSet_of_fresh {κ α : Type} [DecidableEq κ] (l : List (κ × α)) (k : κ)
    (v : α) (h : ∀ p ∈ l, p.1 ≠ k) :
    assocSet l k v = l ++ [(k, v)] := by
  induction l with
  | nil => simp [assocSet]
  | cons p rest ih =>
    have hp : p.1 ≠ k := h p (by simp)
    obtain ⟨pk, pv⟩ := p
    simp only [assocSet, if_neg hp]
    rw [ih (fun q hq => h q (by simp [hq]))]
    simp

theorem assocSet_keys {κ α : Type} [DecidableEq κ] (l : List (κ × α)) (k : κ) (v : α) :
    ((assocSet l k v).map Prod.fst) = if k ∈ l.map Prod.fst then l.map Prod.fst
      else l.map Prod.fst ++ [k] := by
  induction l with
  | nil => simp [assocSet]
  | cons p rest ih =>
    obtain ⟨pk, pv⟩ := p
    by_cases hpk : pk = k
    · subst hpk
      simp [assocSet]
    · have : ¬k = pk := fun h => hpk h.symm
      simp only [assocSet, if_neg hpk, List.map_cons, List.mem_cons, this, false_or]
      rw [ih]
      by_cases hk : k ∈ rest.map Prod.fst <;> simp [hk]

theorem assocSet_keys_nodup {κ α : Type} [DecidableEq κ] (l : List (κ × α)) (k : κ)
    (v : α) (h : (l.map Prod.fst).Nodup) : ((assocSet l k v).map Prod.fst).Nodup := by
  rw [assocSet_keys]
  by_cases hk : k ∈ l.map Prod.fst
  · simpa [hk]
  · simpa [hk, List.nodup_append] using h

theorem assocFind_of_mem_nodup {κ α : Type} [DecidableEq κ] {l : List (κ × α)}
    {p : κ × α} (hmem : p ∈ l) (hnd : (l.map Prod.fst).Nodup) :
    assocFind l p.1 = some p.2 := by
  induction l with
  | nil => cases hmem
  | cons q rest ih =>
    obtain ⟨qk, qv⟩ := q
    rcases List.mem_cons.mp hmem with h | h
    · subst h
      simp [assocFind]
    · have hqk : qk ≠ p.1 := by
        intro he
        have : p.1 ∈ rest.map Prod.fst := List.mem_map.mpr ⟨p, h, rfl⟩
        simp only [List.map_cons, List.nodup_cons] at hnd
        exact hnd.1 (he ▸ this)
      simp only [assocFind, if_neg hqk]
      exact ih h (by simp only [List.map_cons, List.nodup_cons] at hnd; exact hnd.2)

theorem mem_filterMap_guard {α : Type} {l : List α} {x : α} {f : α → Option α}
    (hf : ∀ a b, f a = some b → b = a) :
    x ∈ l.filterMap f ↔ x ∈ l ∧ f x = some x := by
  constructor
  · intro hx
    obtain ⟨a, ha, hfa⟩ := List.mem_filterMap.mp hx
    have := hf a x hfa
    subst this
    exact ⟨ha, hfa⟩
  · intro ⟨hx, hfx⟩
    exact List.mem_filterMap.mpr ⟨x, hx, hfx⟩

/-! ## StateManager lemmas -/

theorem buildVariantLookup_aux (cur : List CountryVariant) :
    ∀ (acc : List (String × CountryVariant)),
      (∀ v ∈ cur, v.id ≠ "") →
      (cur.map CountryVariant.id).Nodup →
      (∀ v ∈ cur, ∀ p ∈ acc, p.1 ≠ v.id) →
      cur.foldl (fun acc v => if v.id = "" then acc else assocSet acc v.id v) acc
        = acc ++ cur.map (fun v => (v.id, v)) := by
  induction cur with
  | nil => intro acc _ _ _; simp
  | cons v rest ih =>
    intro acc h1 h2 hfresh
    have hv : v.id ≠ "" := h1 v (by simp)
    have h2' : v.id ∉ rest.map CountryVariant.id ∧ (rest.map CountryVariant.id).Nodup := by
      rw [List.map_cons, List.nodup_cons] at h2
      exact h2
    have hfresh' : ∀ w ∈ rest, ∀ p ∈ acc ++ [(v.id, v)], p.1 ≠ w.id := by
      intro w hw p hp
      rcases List.mem_append.mp hp with h | h
      · exact hfresh w (by simp [hw]) p h
      · simp only [List.mem_singleton] at h
        subst h
        intro he
        exact h2'.1 (List.mem_map.mpr ⟨w, hw, he.symm⟩)
    simp only [List.foldl_cons, if_neg hv]
    rw [assocSet_of_fresh acc v.id v (fun p hp => hfresh v (by simp) p hp)]
    rw [ih (acc ++ [(v.id, v)]) (fun w hw => h1 w (by simp [hw])) h2'.2 hfresh']
    simp

theorem buildVariantLookup_eq (cur : List CountryVariant)
    (h1 : ∀ v ∈ cur, v.id ≠ "")
    (h2 : (cur.map CountryVariant.id).Nodup) :
    buildVariantLookup cur = cur.map (fun v => (v.id, v)) := by
  simpa using buildVariantLookup_aux cur [] h1 h2 (by simp)

theorem mem_assocSet {κ α : Type} [DecidableEq κ] {l : List (κ × α)} {k : κ} {v : α}
    {p : κ × α} (hp : p ∈ assocSet l k v) : p ∈ l ∨ p = (k, v) := by
  induction l with
  | nil => simpa [assocSet] using hp
  | cons q rest ih =>
    obtain ⟨qk, qv⟩ := q
    by_cases hqk : qk = k
    · subst hqk
      simp only [assocSet, if_pos rfl] at hp
      rcases List.mem_cons.mp hp with h | h
      · exact Or.inr (by simpa using h)
      · exact Or.inl (List.mem_cons.mpr (Or.inr h))
    · simp only [assocSet, if_neg hqk] at hp
      rcases List.mem_cons.mp hp with h | h
      · exact Or.inl (List.mem_cons.mpr (Or.inl h))
      · rcases ih h with h' | h'
        · exact Or.inl (List.mem_cons.mpr (Or.inr h'))
        · exact Or.inr h'

theorem buildVariantLookup_key_ne (cur : List CountryVariant) :
    ∀ (acc : List (String × CountryVariant)), (∀ p ∈ acc, p.1 ≠ "") →
      ∀ p ∈ cur.foldl (fun acc v => if v.id = "" then acc else assocSet acc v.id v) acc,
        p.1 ≠ "" := by
  induction cur with
  | nil => intro acc hacc; simpa using hacc
  | cons v rest ih =>
    intro acc hacc p hp
    simp only [List.foldl_cons] at hp
    by_cases hv : v.id = ""
    · rw [if_pos hv] at hp
      exact ih acc hacc p hp
    · rw [if_neg hv] at hp
      refine ih (assocSet acc v.id v) ?_ p hp
      intro q hq
      rcases mem_assocSet hq with h | h
      · exact hacc q h
      · rw [h]
        exact hv

theorem buildVariantLookup_keys_nodup (cur : List CountryVariant) :
    ∀ (acc : List (String × CountryVariant)), (acc.map Prod.fst).Nodup →
      ((cur.foldl (fun acc v => if v.id = "" then acc else assocSet acc v.id v) acc).map
        Prod.fst).Nodup := by
  induction cur with
  | nil => intro acc hacc; simpa using hacc
  | cons v rest ih =>
    intro acc hacc
    simp only [List.foldl_cons]
    by_cases hv : v.id = ""
    · rw [if_pos hv]
      exact ih acc hacc
    · rw [if_neg hv]
      exact ih (assocSet acc v.id v) (assocSet_keys_nodup acc v.id v hacc)

theorem assocFind_lookup_foldl (cur : List CountryVariant) :
    ∀ (acc : List (String × CountryVariant)) (k : String), k ≠ "" →
      assocFind (cur.foldl (fun acc v => if v.id = "" then acc else assocSet acc v.id v) acc) k
        = match lastOccurrence cur k with
          | some w => some w
          | none => assocFind acc k := by
  induction cur with
  | nil => intro acc k _; simp [lastOccurrence]
  | cons v rest ih =>
    intro acc k hk
    simp only [List.foldl_cons, lastOccurrence]
    by_cases hv : v.id = ""
    · rw [if_pos hv]
      rw [ih acc k hk]
      have hek : ("" = k) = False := eq_false (fun h => hk h.symm)
      cases hlast : lastOccurrence rest k <;> simp [hv, hek]
    · rw [if_neg hv]
      rw [ih (assocSet acc v.id v) k hk]
      cases hlast : lastOccurrence rest k with
      | some w => simp
      | none =>
        simp only
        rw [assocFind_assocSet]
        by_cases hvk : v.id = k <;> simp [hvk]

theorem assocFind_buildVariantLookup (cur : List CountryVariant) (k : String)
    (hk : k ≠ "") :
    assocFind (buildVariantLookup cur) k = lastOccurrence cur k := by
  unfold buildVariantLookup
  rw [assocFind_lookup_foldl cur [] k hk]
  cases lastOccurrence cur k <;> simp [assocFind]

theorem mem_buildVariantLookup_lastOccurrence {cur : List CountryVariant}
    {p : String × CountryVariant} (hp : p ∈ buildVariantLookup cur) :
    p.1 ≠ "" ∧ lastOccurrence cur p.1 = some p.2 := by
  have hne : p.1 ≠ "" := buildVariantLookup_key_ne cur [] (by simp) p hp
  have hnd : ((buildVariantLookup cur).map Prod.fst).Nodup :=
    buildVariantLookup_keys_nodup cur [] (by simp)
  have := assocFind_of_mem_nodup hp hnd
  rw [assocFind_buildVariantLookup cur p.1 hne] at this
  exact ⟨hne, this⟩

theorem assocFind_updateStates_foldl (cur : List CountryVariant) :
    ∀ (states : List (String × VariantState)) (ts : String) (k : String), k ≠ "" →
      assocFind
        (cur.foldl
          (fun st v => if v.id = "" then st
            else assocSet st v.id
              { stock_status := stockStatus v.inventory_quantity, last_updated := ts })
          states) k
        = match lastOccurrence cur k with
          | some w => some (⟨stockStatus w.inventory_quantity, ts⟩ : VariantState)
          | none => assocFind states k := by
  induction cur with
  | nil => intro states ts k _; simp [lastOccurrence]
  | cons v rest ih =>
    intro states ts k hk
    simp only [List.foldl_cons, lastOccurrence]
    by_cases hv : v.id = ""
    · rw [if_pos hv]
      rw [ih states ts k hk]
      have hek : ("" = k) = False := eq_false (fun h => hk h.symm)
      cases hlast : lastOccurrence rest k <;> simp [hv, hek]
    · rw [if_neg hv]
      rw [ih (assocSet states v.id _) ts k hk]
      cases hlast : lastOccurrence rest k with
      | some w => simp
      | none =>
        simp only
        rw [assocFind_assocSet]
        by_cases hvk : v.id = k <;> simp [hvk]

theorem assocFind_updateVariantStates (states : List (String × VariantState))
    (cur : List CountryVariant) (ts : String) (k : String) (hk : k ≠ "") :
    assocFind (updateVariantStates states cur ts) k
      = match lastOccurrence cur k with
        | some w => some (⟨stockStatus w.inventory_quantity, ts⟩ : VariantState)
        | none => assocFind states k := by
  unfold updateVariantStates
  by_cases hne : cur = []
  · subst hne
    simp [lastOccurrence]
  · rw [if_neg hne]
    exact assocFind_updateStates_foldl cur states ts k hk

theorem detect_new_eq (states : List (String × VariantState))
    (current : List CountryVariant)
    (h1 : ∀ v ∈ current, v.id ≠ "")
    (h2 : (current.map CountryVariant.id).Nodup) :
    (detectStockChanges states current).1
      = current.filterMap
          (fun v => if assocFind states v.id = none then some v else none) := by
  by_cases hne : current = []
  · subst hne
    simp [detectStockChanges]
  · unfold detectStockChanges
    rw [if_neg hne]
    simp only
    rw [buildVariantLookup_eq current h1 h2, List.filterMap_map]
    rfl

theorem detect_changed_eq (states : List (String × VariantState))
    (current : List CountryVariant)
    (h1 : ∀ v ∈ current, v.id ≠ "")
    (h2 : (current.map CountryVariant.id).Nodup) :
    (detectStockChanges states current).2
      = current.filterMap
          (fun v =>
            match assocFind states v.id with
            | some st =>
              if st.stock_status ≠ stockStatus v.inventory_quantity then some v else none
            | none => none) := by
  by_cases hne : current = []
  · subst hne
    simp [detectStockChanges]
  · unfold detectStockChanges
    rw [if_neg hne]
    simp only
    rw [buildVariantLookup_eq current h1 h2, List.filterMap_map]
    rfl

theorem mem_detect_new (states : List (String × VariantState))
    (current : List CountryVariant)
    (h1 : ∀ v ∈ current, v.id ≠ "")
    (h2 : (current.map CountryVariant.id).Nodup) (v : CountryVariant) :
    v ∈ (detectStockChanges states current).1 ↔
      v ∈ current ∧ assocFind states v.id = none := by
  rw [detect_new_eq states current h1 h2]
  have hguard : ∀ (a b : CountryVariant),
      (if assocFind states a.id = none then some a else none) = some b → b = a := by
    intro a b hab
    by_cases h : assocFind states a.id = none
    · simp [h] at hab
      exact hab.symm
    · simp [h] at hab
  rw [mem_filterMap_guard hguard]
  by_cases h : assocFind states v.id = none <;> simp [h]

theorem mem_detect_changed (states : List (String × VariantState))
    (current : List CountryVariant)
    (h1 : ∀ v ∈ current, v.id ≠ "")
    (h2 : (current.map CountryVariant.id).Nodup) (v : CountryVariant) :
    v ∈ (detectStockChanges states current).2 ↔
      v ∈ current ∧ ∃ st, assocFind states v.id = some st ∧
        st.stock_status ≠ stockStatus v.inventory_quantity := by
  rw [detect_changed_eq states current h1 h2]
  have hguard : ∀ (a b : CountryVariant),
      (match assocFind states a.id with
        | some st =>
          if st.stock_status ≠ stockStatus a.inventory_quantity then some a else none
        | none => none) = some b → b = a := by
    intro a b hab
    cases h : assocFind states a.id with
    | none => simp [h] at hab
    | some st =>
      simp only [h] at hab
      by_cases hst : st.stock_status ≠ stockStatus a.inventory_quantity <;>
        simp [hst] at hab
      exact hab.symm
  rw [mem_filterMap_guard hguard]
  cases h : assocFind states v.id with
  | none => simp [h]
  | some st =>
    by_cases hst : st.stock_status ≠ stockStatus v.inventory_quantity <;> simp [h, hst]

theorem mem_unchangedVariants (states : List (String × VariantState))
    (current : List CountryVariant) (v : CountryVariant) :
    v ∈ unchangedVariants states current ↔
      v ∈ current ∧ ∃ st, assocFind states v.id = some st ∧
        st.stock_status = stockStatus v.inventory_quantity := by
  unfold unchangedVariants
  rw [List.mem_filter]
  cases h : assocFind states v.id with
  | none => simp [h]
  | some st =>
    by_cases hst : st.stock_status = stockStatus v.inventory_quantity <;> simp [h, hst]

/-- C2.  `detect_stock_changes` partitions any well-formed current
variant list (non-empty, pairwise-distinct composite keys — exactly what
the projector emits) into disjoint new / changed / unchanged parts whose
union is the full input: a variant is new iff its key has no persisted
state, changed iff the persisted availability differs from the current
one, otherwise unchanged. -/
theorem detect_stock_changes_partitions (states : List (String × VariantState))
    (current : List CountryVariant)
    (h1 : ∀ v ∈ current, v.id ≠ "")
    (h2 : (current.map CountryVariant.id).Nodup) :
    (∀ v ∈ current,
        (v ∈ (detectStockChanges states current).1 ↔ assocFind states v.id = none)
      ∧ (v ∈ (detectStockChanges states current).2 ↔
          ∃ st, assocFind states v.id = some st ∧
            st.stock_status ≠ stockStatus v.inventory_quantity)
      ∧ (v ∈ unchangedVariants states current ↔
          ∃ st, assocFind states v.id = some st ∧
            st.stock_status = stockStatus v.inventory_quantity))
    ∧ (∀ v, v ∈ current ↔
        v ∈ (detectStockChanges states current).1 ∨
          v ∈ (detectStockChanges states current).2 ∨
          v ∈ unchangedVariants states current)
    ∧ (∀ v,
        ¬(v ∈ (detectStockChanges states current).1 ∧
          v ∈ (detectStockChanges states current).2)
      ∧ ¬(v ∈ (detectStockChanges states current).1 ∧
          v ∈ unchangedVariants states current)
      ∧ ¬(v ∈ (detectStockChanges states current).2 ∧
          v ∈ unchangedVariants states current)) := by
  refine ⟨?_, ?_, ?_⟩
  · intro v hv
    refine ⟨?_, ?_, ?_⟩
    · rw [mem_detect_new states current h1 h2 v]
      simp [hv]
    · rw [mem_detect_changed states current h1 h2 v]
      simp [hv]
    · rw [mem_unchangedVariants states current v]
      simp [hv]
  · intro v
    rw [mem_detect_new states current h1 h2 v, mem_detect_changed states current h1 h2 v,
      mem_unchangedVariants states current v]
    constructor
    · intro hv
      cases h : assocFind states v.id with
      | none => exact Or.inl ⟨hv, rfl⟩
      | some st =>
        by_cases hst : st.stock_status = stockStatus v.inventory_quantity
        · exact Or.inr (Or.inr ⟨hv, st, rfl, hst⟩)
        · exact Or.inr (Or.inl ⟨hv, st, rfl, hst⟩)
    · rintro (⟨hv, _⟩ | ⟨hv, _⟩ | ⟨hv, _⟩) <;> exact hv
  · intro v
    rw [mem_detect_new states current h1 h2 v, mem_detect_changed states current h1 h2 v,
      mem_unchangedVariants states current v]
    refine ⟨?_, ?_, ?_⟩
    · rintro ⟨⟨_, hnone⟩, ⟨_, st, hsome, _⟩⟩
      rw [hnone] at hsome
      cases hsome
    · rintro ⟨⟨_, hnone⟩, ⟨_, st, hsome, _⟩⟩
      rw [hnone] at hsome
      cases hsome
    · rintro ⟨⟨_, st, hsome, hne'⟩, ⟨_, st', hsome', heq'⟩⟩
      rw [hsome] at hsome'
      cases hsome'
      exact hne' heq'

theorem assocQty_assocBump {κ : Type} [DecidableEq κ] (l : List (κ × Int)) (k : κ)
    (q : Int) (k' : κ) :
    assocQty (assocBump l k q) k' = assocQty l k' + (if k = k' then q else 0) := by
  induction l with
  | nil =>
    by_cases hk : k = k' <;> simp [assocBump, assocQty, assocFind, hk]
  | cons p rest ih =>
    obtain ⟨pk, pv⟩ := p
    by_cases hpk : pk = k
    · subst hpk
      by_cases hk : pk = k'
      · subst hk
        simp [assocBump, assocQty, assocFind]
      · simp [assocBump, assocQty, assocFind, hk]
    · by_cases hk : pk = k'
      · subst hk
        have hkk : ¬k = pk := fun h => hpk h.symm
        simp [assocBump, assocQty, assocFind, hpk, hkk]
      · simp only [assocBump, if_neg hpk, assocQty, assocFind, if_neg hk]
        exact ih

theorem mem_of_assocFind_some {κ α : Type} [DecidableEq κ] {l : List (κ × α)} {k : κ}
    {v : α} (h : assocFind l k = some v) : (k, v) ∈ l := by
  induction l with
  | nil => simp [assocFind] at h
  | cons p rest ih =>
    obtain ⟨pk, pv⟩ := p
    by_cases hpk : pk = k
    · subst hpk
      simp [assocFind] at h
      subst h
      simp
    · simp only [assocFind, if_neg hpk] at h
      exact List.mem_cons_of_mem _ (ih h)

theorem assocBump_keys {κ : Type} [DecidableEq κ] (l : List (κ × Int)) (k : κ) (q : Int) :
    ((assocBump l k q).map Prod.fst) = if k ∈ l.map Prod.fst then l.map Prod.fst
      else l.map Prod.fst ++ [k] := by
  induction l with
  | nil => simp [assocBump]
  | cons p rest ih =>
    obtain ⟨pk, pv⟩ := p
    by_cases hpk : pk = k
    · subst hpk
      simp [assocBump]
    · have : ¬k = pk := fun h => hpk h.symm
      simp only [assocBump, if_neg hpk, List.map_cons, List.mem_cons, this, false_or]
      rw [ih]
      by_cases hk : k ∈ rest.map Prod.fst <;> simp [hk]

theorem assocBump_keys_nodup {κ : Type} [DecidableEq κ] (l : List (κ × Int)) (k : κ)
    (q : Int) (h : (l.map Prod.fst).Nodup) : ((assocBump l k q).map Prod.fst).Nodup := by
  rw [assocBump_keys]
  by_cases hk : k ∈ l.map Prod.fst
  · simpa [hk]
  · simpa [hk, List.nodup_append] using h

theorem countriesFold_qty (active : List (String × CountryInfo)) (variantId : String)
    (qty : Int) (countries : List String) :
    ∀ (inv : List ((String × String) × Int)) (k1 k2 : String), countries.Nodup →
      assocQty
        (countries.foldl
          (fun inv2 c =>
            if (assocFind active c).isSome then assocBump inv2 (variantId, c) qty else inv2)
          inv) (k1, k2)
        = assocQty inv (k1, k2)
          + (if k1 = variantId ∧ k2 ∈ countries ∧ (assocFind active k2).isSome then qty
             else 0) := by
  induction countries with
  | nil => intro inv k1 k2 _; simp
  | cons c rest ih =>
    intro inv k1 k2 hnd
    obtain ⟨hc, hrest⟩ := List.nodup_cons.mp hnd
    simp only [List.foldl_cons]
    by_cases hac : (assocFind active c).isSome
    · rw [if_pos hac]
      rw [ih (assocBump inv (variantId, c) qty) k1 k2 hrest]
      rw [assocQty_assocBump]
      by_cases h1 : k1 = variantId
      · by_cases h2 : k2 = c
        · subst h1; subst h2
          have hnr : k2 ∉ rest := hc
          rw [if_pos rfl, if_neg (fun h => hnr h.2.1),
            if_pos ⟨rfl, List.mem_cons_self _ _, hac⟩]
          ring
        · have hne : ¬(variantId, c) = (k1, k2) := by
            simp [Prod.mk.injEq]
            intro _
            exact fun h => h2 h.symm
          rw [if_neg hne]
          have hmem : (k2 ∈ c :: rest) ↔ (k2 ∈ rest) := by simp [h2]
          simp only [hmem]
          ring
      · have hne : ¬(variantId, c) = (k1, k2) := by
          simp [Prod.mk.injEq]
          intro h
          exact absurd h.symm h1
        rw [if_neg hne, if_neg (fun h => h1 h.1), if_neg (fun h => h1 h.1)]
        ring
    · rw [if_neg hac]
      rw [ih inv k1 k2 hrest]
      by_cases h2 : k2 = c
      · subst h2
        rw [if_neg (fun h => hac h.2.2), if_neg (fun h => hac h.2.2)]
      · have hmem : (k2 ∈ c :: rest) ↔ (k2 ∈ rest) := by simp [h2]
        simp only [hmem]

theorem levelContrib_eq (active : List (String × CountryInfo))
    (locMap : List (String × LocationEntry)) (variantId : String) (level : BulkRecord)
    (k1 k2 : String) :
    levelContrib active locMap variantId level (k1, k2)
      = if level.location.getD "" = "" then 0
        else
          match assocFind locMap (lastSlashSegment (level.location.getD "")) with
          | some entry =>
            if k1 = variantId ∧ k2 ∈ entry.countries ∧ (assocFind active k2).isSome then
              (if availableQty (level.quantities.getD []) > 0 then
                availableQty (level.quantities.getD []) else 0)
            else 0
          | none => 0 := by
  by_cases hl : level.location.getD "" = ""
  · simp [levelContrib, levelServes, hl]
  · cases hfind : assocFind locMap (lastSlashSegment (level.location.getD "")) with
    | none => simp [levelContrib, levelServes, hl, hfind]
    | some entry =>
      simp [levelContrib, levelServes, hl, hfind, List.contains, List.elem_iff]

theorem assocQty_addLevelInventory (active : List (String × CountryInfo))
    (locMap : List (String × LocationEntry)) (variantId : String) (level : BulkRecord)
    (inv : List ((String × String) × Int)) (k1 k2 : String)
    (hmap : ∀ p ∈ locMap, p.2.countries.Nodup) :
    assocQty (addLevelInventory active locMap variantId inv level) (k1, k2)
      = assocQty inv (k1, k2) + levelContrib active locMap variantId level (k1, k2) := by
  rw [levelContrib_eq]
  by_cases hl : level.location.getD "" = ""
  · simp [addLevelInventory, hl]
  · cases hfind : assocFind locMap (lastSlashSegment (level.location.getD "")) with
    | none => simp [addLevelInventory, hl, hfind]
    | some entry =>
      have hnd : entry.countries.Nodup := hmap _ (mem_of_assocFind_some hfind)
      by_cases hq : availableQty (level.quantities.getD []) > 0
      · have hL : addLevelInventory active locMap variantId inv level
            = entry.countries.foldl
                (fun inv2 c =>
                  if (assocFind active c).isSome then
                    assocBump inv2 (variantId, c) (availableQty (level.quantities.getD []))
                  else inv2) inv := by
          simp [addLevelInventory, hl, hfind, hq]
        rw [hL, countriesFold_qty active variantId (availableQty (level.quantities.getD []))
          entry.countries inv k1 k2 hnd]
        simp [hl, hq]
      · have hL : addLevelInventory active locMap variantId inv level = inv := by
          simp [addLevelInventory, hl, hfind, hq]
        rw [hL]
        simp [hl, hq]

theorem assocQty_levelsFold (active : List (String × CountryInfo))
    (locMap : List (String × LocationEntry)) (variantId : String) (ls : List BulkRecord)
    (hmap : ∀ p ∈ locMap, p.2.countries.Nodup) :
    ∀ (inv : List ((String × String) × Int)) (k1 k2 : String),
      assocQty (ls.foldl (addLevelInventory active locMap variantId) inv) (k1, k2)
        = assocQty inv (k1, k2)
          + (ls.map (fun level => levelContrib active locMap variantId level (k1, k2))).sum := by
  induction ls with
  | nil => intro inv k1 k2; simp
  | cons level rest ih =>
    intro inv k1 k2
    simp only [List.foldl_cons, List.map_cons, List.sum_cons]
    rw [ih (addLevelInventory active locMap variantId inv level) k1 k2]
    rw [assocQty_addLevelInventory active locMap variantId level inv k1 k2 hmap]
    ring

theorem assocQty_buildFold (active : List (String × CountryInfo))
    (locMap : List (String × LocationEntry))
    (entries : List (String × List BulkRecord))
    (hmap : ∀ p ∈ locMap, p.2.countries.Nodup) :
    ∀ (inv : List ((String × String) × Int)) (k1 k2 : String),
      assocQty
        (entries.foldl
          (fun inv p => p.2.foldl (addLevelInventory active locMap p.1) inv) inv) (k1, k2)
        = assocQty inv (k1, k2)
          + (entries.map
              (fun p =>
                (p.2.map (fun level => levelContrib active locMap p.1 level (k1, k2))).sum)).sum := by
  induction entries with
  | nil => intro inv k1 k2; simp
  | cons p rest ih =>
    intro inv k1 k2
    simp only [List.foldl_cons, List.map_cons, List.sum_cons]
    rw [ih (p.2.foldl (addLevelInventory active locMap p.1) inv) k1 k2]
    rw [assocQty_levelsFold active locMap p.1 p.2 hmap inv k1 k2]
    ring

theorem levelContrib_ne_variant (active : List (String × CountryInfo))
    (locMap : List (String × LocationEntry)) (variantId : String) (level : BulkRecord)
    (k1 k2 : String) (h : k1 ≠ variantId) :
    levelContrib active locMap variantId level (k1, k2) = 0 := by
  unfold levelContrib
  rw [if_neg (fun hc => h hc.1)]

theorem entry_contrib_sum_ne (active : List (String × CountryInfo))
    (locMap : List (String × LocationEntry)) (vgid c : String)
    (p : String × List BulkRecord) (h : p.1 ≠ vgid) :
    (p.2.map (fun level => levelContrib active locMap p.1 level (vgid, c))).sum = 0 := by
  apply List.sum_eq_zero
  intro x hx
  obtain ⟨level, _, hlev⟩ := List.mem_map.mp hx
  rw [← hlev]
  exact levelContrib_ne_variant active locMap p.1 level vgid c (fun he => h he.symm)

theorem sum_entries_absent (active : List (String × CountryInfo))
    (locMap : List (String × LocationEntry)) (vgid c : String)
    (entries : List (String × List BulkRecord)) (h : vgid ∉ entries.map Prod.fst) :
    (entries.map
      (fun p =>
        (p.2.map (fun level => levelContrib active locMap p.1 level (vgid, c))).sum)).sum
      = 0 := by
  apply List.sum_eq_zero
  intro x hx
  obtain ⟨p, hp, hpx⟩ := List.mem_map.mp hx
  rw [← hpx]
  refine entry_contrib_sum_ne active locMap vgid c p (fun he => h ?_)
  exact List.mem_map.mpr ⟨p, hp, he⟩

theorem sum_entries_single (active : List (String × CountryInfo))
    (locMap : List (String × LocationEntry)) (vgid c : String) :
    ∀ (entries : List (String × List BulkRecord)), (entries.map Prod.fst).Nodup →
      (entries.map
        (fun p =>
          (p.2.map (fun level => levelContrib active locMap p.1 level (vgid, c))).sum)).sum
        = (((assocFind entries vgid).getD []).map
            (fun level => levelContrib active locMap vgid level (vgid, c))).sum := by
  intro entries
  induction entries with
  | nil => intro _; simp [assocFind]
  | cons p rest ih =>
    intro hnd
    obtain ⟨hp, hrest⟩ := by
      rw [List.map_cons, List.nodup_cons] at hnd
      exact hnd
    simp only [List.map_cons, List.sum_cons]
    by_cases hpk : p.1 = vgid
    · have habs : vgid ∉ rest.map Prod.fst := hpk ▸ hp
      rw [sum_entries_absent active locMap vgid c rest habs]
      obtain ⟨pk, pls⟩ := p
      simp only at hpk
      subst hpk
      simp [assocFind]
    · obtain ⟨pk, pls⟩ := p
      simp only at hpk
      simp only [assocFind, if_neg hpk]
      rw [entry_contrib_sum_ne active locMap vgid c (pk, pls) hpk]
      rw [ih hrest]
      simp [assocFind]

theorem buildCountryInventory_qty (inventoryLevels : List (String × List BulkRecord))
    (active : List (String × CountryInfo)) (locMap : List (String × LocationEntry))
    (hkeys : (inventoryLevels.map Prod.fst).Nodup)
    (hmap : ∀ p ∈ locMap, p.2.countries.Nodup) (vgid c : String) :
    assocQty (buildCountryInventory inventoryLevels active locMap) (vgid, c)
      = (((assocFind inventoryLevels vgid).getD []).map
          (fun level => levelContrib active locMap vgid level (vgid, c))).sum := by
  unfold buildCountryInventory
  rw [assocQty_buildFold active locMap inventoryLevels hmap [] vgid c]
  rw [sum_entries_single active locMap vgid c inventoryLevels hkeys]
  simp [assocQty, assocFind]

theorem positiveAttributedQty_eq_contrib_sum
    (inventoryLevels : List (String × List BulkRecord))
    (locMap : List (String × LocationEntry)) (active : List (String × CountryInfo))
    (vgid c : String) :
    positiveAttributedQty inventoryLevels locMap active vgid c
      = (((assocFind inventoryLevels vgid).getD []).map
          (fun level => levelContrib active locMap vgid level (vgid, c))).sum := by
  simp [positiveAttributedQty, levelContrib]

theorem countriesFold_keys_nodup (active : List (String × CountryInfo))
    (variantId : String) (qty : Int) (countries : List String) :
    ∀ (inv : List ((String × String) × Int)), (inv.map Prod.fst).Nodup →
      ((countries.foldl
        (fun inv2 c =>
          if (assocFind active c).isSome then assocBump inv2 (variantId, c) qty else inv2)
        inv).map Prod.fst).Nodup := by
  induction countries with
  | nil => intro inv h; simpa using h
  | cons c rest ih =>
    intro inv h
    simp only [List.foldl_cons]
    by_cases hac : (assocFind active c).isSome
    · rw [if_pos hac]
      exact ih _ (assocBump_keys_nodup inv (variantId, c) qty h)
    · rw [if_neg hac]
      exact ih inv h

theorem addLevelInventory_keys_nodup (active : List (String × CountryInfo))
    (locMap : List (String × LocationEntry)) (variantId : String) (level : BulkRecord)
    (inv : List ((String × String) × Int)) (h : (inv.map Prod.fst).Nodup) :
    ((addLevelInventory active locMap variantId inv level).map Prod.fst).Nodup := by
  by_cases hl : level.location.getD "" = ""
  · simpa [addLevelInventory, hl] using h
  · cases hfind : assocFind locMap (lastSlashSegment (level.location.getD "")) with
    | none => simpa [addLevelInventory, hl, hfind] using h
    | some entry =>
      by_cases hq : availableQty (level.quantities.getD []) > 0
      · have hL : addLevelInventory active locMap variantId inv level
            = entry.countries.foldl
                (fun inv2 c =>
                  if (assocFind active c).isSome then
                    assocBump inv2 (variantId, c) (availableQty (level.quantities.getD []))
                  else inv2) inv := by
          simp [addLevelInventory, hl, hfind, hq]
        rw [hL]
        exact countriesFold_keys_nodup active variantId _ entry.countries inv h
      · have hL : addLevelInventory active locMap variantId inv level = inv := by
          simp [addLevelInventory, hl, hfind, hq]
        rw [hL]
        exact h

theorem buildCountryInventory_keys_nodup
    (inventoryLevels : List (String × List BulkRecord))
    (active : List (String × CountryInfo)) (locMap : List (String × LocationEntry)) :
    ((buildCountryInventory inventoryLevels active locMap).map Prod.fst).Nodup := by
  have haux : ∀ (entries : List (String × List BulkRecord))
      (inv : List ((String × String) × Int)), (inv.map Prod.fst).Nodup →
      ((entries.foldl
        (fun inv p => p.2.foldl (addLevelInventory active locMap p.1) inv) inv).map
          Prod.fst).Nodup := by
    intro entries
    induction entries with
    | nil => intro inv h; simpa using h
    | cons p rest ih =>
      intro inv h
      simp only [List.foldl_cons]
      refine ih _ ?_
      have hlist : ∀ (ls : List BulkRecord) (inv2 : List ((String × String) × Int)),
          (inv2.map Prod.fst).Nodup →
          ((ls.foldl (addLevelInventory active locMap p.1) inv2).map Prod.fst).Nodup := by
        intro ls
        induction ls with
        | nil => intro inv2 h2; simpa using h2
        | cons level lrest ihl =>
          intro inv2 h2
          simp only [List.foldl_cons]
          exact ihl _ (addLevelInventory_keys_nodup active locMap p.1 level inv2 h2)
      exact hlist p.2 inv h
  exact haux inventoryLevels [] (by simp)

theorem mem_countriesWithInventory_aux (inv : List ((String × String) × Int)) :
    ∀ (acc : List String) (c : String),
      c ∈ inv.foldl
        (fun acc p => if p.2 > 0 ∧ p.1.2 ∉ acc then acc ++ [p.1.2] else acc) acc
      ↔ c ∈ acc ∨ ∃ p ∈ inv, p.1.2 = c ∧ p.2 > 0 := by
  induction inv with
  | nil => intro acc c; simp
  | cons p rest ih =>
    intro acc c
    simp only [List.foldl_cons]
    by_cases hcond : p.2 > 0 ∧ p.1.2 ∉ acc
    · rw [if_pos hcond]
      rw [ih (acc ++ [p.1.2]) c]
      constructor
      · rintro (hmem | ⟨q, hq, hqc, hqpos⟩)
        · rcases List.mem_append.mp hmem with h | h
          · exact Or.inl h
          · simp only [List.mem_singleton] at h
            exact Or.inr ⟨p, by simp, h.symm, hcond.1⟩
        · exact Or.inr ⟨q, by simp [hq], hqc, hqpos⟩
      · rintro (hmem | ⟨q, hq, hqc, hqpos⟩)
        · exact Or.inl (List.mem_append.mpr (Or.inl hmem))
        · rcases List.mem_cons.mp hq with h | h
          · subst h
            exact Or.inl (List.mem_append.mpr (Or.inr (by simp [hqc])))
          · exact Or.inr ⟨q, h, hqc, hqpos⟩
    · rw [if_neg hcond]
      rw [ih acc c]
      constructor
      · rintro (hmem | ⟨q, hq, hqc, hqpos⟩)
        · exact Or.inl hmem
        · exact Or.inr ⟨q, by simp [hq], hqc, hqpos⟩
      · rintro (hmem | ⟨q, hq, hqc, hqpos⟩)
        · exact Or.inl hmem
        · rcases List.mem_cons.mp hq with h | h
          · subst h
            rcases not_and_or.mp hcond with h' | h'
            · exact absurd hqpos h'
            · rw [not_not] at h'
              exact Or.inl (hqc ▸ h')
          · exact Or.inr ⟨q, h, hqc, hqpos⟩

theorem mem_countriesWithInventory (inv : List ((String × String) × Int)) (c : String) :
    c ∈ countriesWithInventory inv ↔ ∃ p ∈ inv, p.1.2 = c ∧ p.2 > 0 := by
  unfold countriesWithInventory
  rw [mem_countriesWithInventory_aux inv [] c]
  simp

theorem mem_buildInnerFold (countryInventory : List ((String × String) × Int))
    (active : List (String × CountryInfo)) (p : String × BulkRecord)
    (targets : List String) :
    ∀ (acc : List CountryVariant) (cv : CountryVariant),
      cv ∈ targets.foldl
        (fun acc2 c =>
          if (assocFind active c).isNone then acc2
          else
            if p.2.inventoryItemSku = "" then acc2
            else acc2 ++ [createCountryVariantFromBulk p.2 (p.2.product.getD ⟨"", "", ""⟩)
              c p.1 countryInventory active]) acc
      ↔ cv ∈ acc ∨ ∃ c ∈ targets, ¬(assocFind active c).isNone ∧
          p.2.inventoryItemSku ≠ "" ∧
          cv = createCountryVariantFromBulk p.2 (p.2.product.getD ⟨"", "", ""⟩)
            c p.1 countryInventory active := by
  induction targets with
  | nil => intro acc cv; simp
  | cons c rest ih =>
    intro acc cv
    simp only [List.foldl_cons]
    by_cases hac : (assocFind active c).isNone
    · rw [if_pos hac, ih acc cv]
      constructor
      · rintro (h | ⟨c', hc', hx⟩)
        · exact Or.inl h
        · exact Or.inr ⟨c', by simp [hc'], hx⟩
      · rintro (h | ⟨c', hc', hac', hx⟩)
        · exact Or.inl h
        · rcases List.mem_cons.mp hc' with h' | h'
          · subst h'
            exact absurd hac hac'
          · exact Or.inr ⟨c', h', hac', hx⟩
    · rw [if_neg hac]
      by_cases hsku : p.2.inventoryItemSku = ""
      · rw [if_pos hsku, ih acc cv]
        constructor
        · rintro (h | ⟨c', hc', hx⟩)
          · exact Or.inl h
          · exact Or.inr ⟨c', by simp [hc'], hx⟩
        · rintro (h | ⟨c', hc', hac', hsku', hx⟩)
          · exact Or.inl h
          · rcases List.mem_cons.mp hc' with h' | h'
            · exact absurd hsku hsku'
            · exact Or.inr ⟨c', h', hac', hsku', hx⟩
      · rw [if_neg hsku, ih _ cv]
        constructor
        · rintro (h | ⟨c', hc', hx⟩)
          · rcases List.mem_append.mp h with h' | h'
            · exact Or.inl h'
            · simp only [List.mem_singleton] at h'
              exact Or.inr ⟨c, by simp, hac, hsku, h'⟩
          · exact Or.inr ⟨c', by simp [hc'], hx⟩
        · rintro (h | ⟨c', hc', hac', hsku', hx⟩)
          · exact Or.inl (List.mem_append.mpr (Or.inl h))
          · rcases List.mem_cons.mp hc' with h' | h'
            · subst h'
              exact Or.inl (List.mem_append.mpr (Or.inr (by simp [hx])))
            · exact Or.inr ⟨c', h', hac', hsku', hx⟩

theorem mem_buildCountryVariantsFromBulk (variants : List (String × BulkRecord))
    (inventoryLevels : List (String × List BulkRecord))
    (active : List (String × CountryInfo)) (locMap : List (String × LocationEntry))
    (cv : CountryVariant) :
    cv ∈ buildCountryVariantsFromBulk variants inventoryLevels active locMap
    ↔ ∃ p ∈ variants,
        ∃ c ∈ countriesWithInventory (buildCountryInventory inventoryLevels active locMap),
          ¬(assocFind active c).isNone ∧ p.2.inventoryItemSku ≠ "" ∧
          cv = createCountryVariantFromBulk p.2 (p.2.product.getD ⟨"", "", ""⟩)
            c p.1 (buildCountryInventory inventoryLevels active locMap) active := by
  unfold buildCountryVariantsFromBulk
  have haux : ∀ (vs : List (String × BulkRecord)) (acc : List CountryVariant),
      cv ∈ vs.foldl
        (fun acc p =>
          (countriesWithInventory (buildCountryInventory inventoryLevels active locMap)).foldl
            (fun acc2 c =>
              if (assocFind active c).isNone then acc2
              else
                if p.2.inventoryItemSku = "" then acc2
                else acc2 ++ [createCountryVariantFromBulk p.2
                  (p.2.product.getD ⟨"", "", ""⟩) c p.1
                  (buildCountryInventory inventoryLevels active locMap) active]) acc) acc
      ↔ cv ∈ acc ∨ ∃ p ∈ vs,
          ∃ c ∈ countriesWithInventory (buildCountryInventory inventoryLevels active locMap),
            ¬(assocFind active c).isNone ∧ p.2.inventoryItemSku ≠ "" ∧
            cv = createCountryVariantFromBulk p.2 (p.2.product.getD ⟨"", "", ""⟩)
              c p.1 (buildCountryInventory inventoryLevels active locMap) active := by
    intro vs
    induction vs with
    | nil => intro acc; simp
    | cons p rest ihv =>
      intro acc
      simp only [List.foldl_cons]
      rw [ihv _]
      rw [mem_buildInnerFold (buildCountryInventory inventoryLevels active locMap)
        active p (countriesWithInventory (buildCountryInventory inventoryLevels active locMap))
        acc cv]
      constructor
      · rintro ((h | ⟨c, hc, hx⟩) | ⟨q, hq, hx⟩)
        · exact Or.inl h
        · exact Or.inr ⟨p, by simp, c, hc, hx⟩
        · exact Or.inr ⟨q, by simp [hq], hx⟩
      · rintro (h | ⟨q, hq, hx⟩)
        · exact Or.inl (Or.inl h)
        · rcases List.mem_cons.mp hq with h' | h'
          · subst h'
            exact Or.inl (Or.inr hx)
          · exact Or.inr ⟨q, h', hx⟩
  rw [haux variants []]
  simp

/-- C1 (amended).  Every country variant the projection emits has a
country code that is in the active country set and that received
non-zero summed quantity for at least one variant in the run.  (The
projection does, however, emit a zero-quantity CountryVariant for every
SKU-carrying variant crossed with every such country, even when the
variant has no serving location there — see the counterexample.) -/
theorem build_country_variants_active_and_stocked
    (variants : List (String × BulkRecord))
    (inventoryLevels : List (String × List BulkRecord))
    (active : List (String × CountryInfo)) (locMap : List (String × LocationEntry)) :
    ∀ cv ∈ buildCountryVariantsFromBulk variants inventoryLevels active locMap,
      (assocFind active cv.country_code).isSome
      ∧ ∃ variantGid,
          assocQty (buildCountryInventory inventoryLevels active locMap)
            (variantGid, cv.country_code) > 0 := by
  intro cv hcv
  rw [mem_buildCountryVariantsFromBulk] at hcv
  obtain ⟨p, _, c, hc, hac, _, rfl⟩ := hcv
  have hcc : (createCountryVariantFromBulk p.2 (p.2.product.getD ⟨"", "", ""⟩)
      c p.1 (buildCountryInventory inventoryLevels active locMap) active).country_code
      = c := rfl
  rw [hcc]
  constructor
  · cases hfind : assocFind active c with
    | none => exact absurd (by simp [Option.isNone, hfind]) hac
    | some info => simp
  · rw [mem_countriesWithInventory] at hc
    obtain ⟨q, hq, hqc, hqpos⟩ := hc
    refine ⟨q.1.1, ?_⟩
    have hnd := buildCountryInventory_keys_nodup inventoryLevels active locMap
    have hfind := assocFind_of_mem_nodup hq hnd
    have hkey : q.1 = (q.1.1, c) := by
      rw [← hqc]
    rw [hkey] at hfind
    simp only [assocQty, hfind, Option.getD_some]
    exact hqpos

/-- C5 (amended).  The quantity the projection attributes to a
`(variant, country)` pair is the sum of `available` quantities over the
variant's inventory facts at known, mapped locations serving that
country, restricted to facts with positive quantity and an active served
country; the quantity lands verbatim in the emitted country variant, and
availability is `in stock` exactly when it is positive.  (A location
serving two countries contributes its full quantity to both, since each
serving country gets its own `assocBump`.) -/
theorem attributed_quantity_positive_sum
    (inventoryLevels : List (String × List BulkRecord))
    (active : List (String × CountryInfo)) (locMap : List (String × LocationEntry))
    (hkeys : (inventoryLevels.map Prod.fst).Nodup)
    (hmap : ∀ p ∈ locMap, p.2.countries.Nodup) (variantGid countryCode : String) :
    assocQty (buildCountryInventory inventoryLevels active locMap)
        (variantGid, countryCode)
      = positiveAttributedQty inventoryLevels locMap active variantGid countryCode
    ∧ (∀ (vdata : BulkRecord) (pdata : ProductData),
        (createCountryVariantFromBulk vdata pdata countryCode variantGid
          (buildCountryInventory inventoryLevels active locMap) active).inventory_quantity
        = positiveAttributedQty inventoryLevels locMap active variantGid countryCode)
    ∧ (∀ q : Int, stockStatus q = "in stock" ↔ q > 0) := by
  have hmain :
      assocQty (buildCountryInventory inventoryLevels active locMap)
        (variantGid, countryCode)
      = positiveAttributedQty inventoryLevels locMap active variantGid countryCode := by
    rw [buildCountryInventory_qty inventoryLevels active locMap hkeys hmap,
      positiveAttributedQty_eq_contrib_sum]
  refine ⟨hmain, fun vdata pdata => hmain, fun q => ?_⟩
  unfold stockStatus
  by_cases hq : q > 0 <;> simp [hq]

/-- C8.  Committing the same variant list twice and then diffing it again
yields empty new and changed lists, for every starting persisted state
and every input list. -/
theorem commit_twice_then_diff_empty (states : List (String × VariantState))
    (current : List CountryVariant) (ts1 ts2 : String) :
    detectStockChanges
      (updateVariantStates (updateVariantStates states current ts1) current ts2)
      current = ([], []) := by
  by_cases hne : current = []
  · subst hne
    simp [detectStockChanges]
  · unfold detectStockChanges
    rw [if_neg hne]
    have hstate : ∀ p ∈ buildVariantLookup current,
        assocFind
          (updateVariantStates (updateVariantStates states current ts1) current ts2) p.1
          = some (⟨stockStatus p.2.inventory_quantity, ts2⟩ : VariantState) := by
      intro p hp
      obtain ⟨hne', hlast⟩ := mem_buildVariantLookup_lastOccurrence hp
      rw [assocFind_updateVariantStates _ current ts2 p.1 hne', hlast]
    refine Prod.ext ?_ ?_
    · simp only
      rw [List.filterMap_eq_nil_iff]
      intro p hp
      rw [hstate p hp]
      simp
    · simp only
      rw [List.filterMap_eq_nil_iff]
      intro p hp
      rw [hstate p hp]
      simp

/-! ## ProductLoader parse-loop lemmas (C4) -/

theorem processLines_invalidJson (pre post : List BulkLine) :
    ∀ st, processLines (pre ++ BulkLine.invalidJson :: post) st
      = processLines (pre ++ post) st := by
  induction pre with
  | nil => intro st; simp [processLines]
  | cons l rest ih =>
    intro st
    cases l <;> simp [processLines, ih]

theorem processLines_undecodable (lines : List BulkLine)
    (hmem : BulkLine.undecodable ∈ lines) : ∀ st, processLines lines st = none := by
  induction lines with
  | nil => cases hmem
  | cons l rest ih =>
    intro st
    rcases List.mem_cons.mp hmem with h | h
    · rw [← h]
      rfl
    · cases l <;> simp [processLines] <;> exact ih h _

/-- C4 (amended).  The record-graph build never raises (it is a total
function of the line outcomes): a malformed-JSON line is skipped and the
result equals the build over the remaining lines; a line with invalid
bytes, however, aborts the whole parse in the outer handler and the
loader returns an empty result instead of the remaining lines'
records. -/
theorem load_bulk_jsonl_malformed_line_tolerance :
    (∀ (pre post : List BulkLine) (active : List (String × CountryInfo))
        (locMap : List (String × LocationEntry)),
      loadProductsFromBulkJsonl (pre ++ BulkLine.invalidJson :: post) active locMap
        = loadProductsFromBulkJsonl (pre ++ post) active locMap)
    ∧ (∀ (lines : List BulkLine) (active : List (String × CountryInfo))
        (locMap : List (String × LocationEntry)),
      BulkLine.undecodable ∈ lines →
        loadProductsFromBulkJsonl lines active locMap = []) := by
  constructor
  · intro pre post active locMap
    unfold loadProductsFromBulkJsonl
    rw [processLines_invalidJson pre post emptyGraph]
  · intro lines active locMap hmem
    unfold loadProductsFromBulkJsonl
    rw [processLines_undecodable lines hmem emptyGraph]

/-! ## Identifier and mapping-mode theorems (C9, C10) -/

/-- C9.  The Google Merchant row identifier is literally the
store/platform tag `shopify_US_`, the variant's product id and the base
variant id stripped from its variant-country id; two variants agreeing
on those fields (in any two runs, whatever their quantities or
timestamps) get the same identifier, and the meta CSV row identifier is
likewise a function of the variant-country id alone. -/
theorem feed_row_identifier_deterministic (v1 v2 : CountryVariant) :
    (googleCompositeRowId v1
      = "shopify_US_" ++ v1.product_id ++ "_" ++ extractShopifyVariantId v1.id)
    ∧ (v1.id = v2.id → v1.product_id = v2.product_id →
        googleCompositeRowId v1 = googleCompositeRowId v2)
    ∧ (v1.id = v2.id → ∀ c,
        (formatCsvRow v1 c).map FeedRow.rowId = (formatCsvRow v2 c).map FeedRow.rowId) := by
  refine ⟨rfl, ?_, ?_⟩
  · intro h1 h2
    unfold googleCompositeRowId
    rw [h1, h2]
  · intro h1 c
    unfold formatCsvRow
    rw [h1]
    by_cases h : extractShopifyVariantId v2.id = "" <;> simp [h]

/-- C10.  With smart mapping disabled, change detection reports
`changed = false` with reason `Smart mapping disabled` for every state of
the persisted fingerprint, leaves the comparison file untouched, and the
strategy decision therefore picks INCREMENTAL whenever a previous sync
checkpoint exists — never FULL via change detection. -/
theorem smart_mapping_disabled_never_changes (freshHash : String)
    (storedHash : Option String) (lastSync : Option Int) :
    getMappingWithChangeDetection false freshHash storedHash
      = (false, "Smart mapping disabled", storedHash)
    ∧ (∀ t, lastSync = some t →
        determineSmartSyncStrategy
          (getMappingWithChangeDetection false freshHash storedHash).1 lastSync
          = (false, some t)) := by
  refine ⟨rfl, ?_⟩
  intro t ht
  subst ht
  rfl

/-! ## Mapping-fingerprint lemmas (C3) -/

theorem quote_body_inj :
    ∀ (a1 : List Char), (∀ ch ∈ a1, ch ≠ '\"') →
    ∀ (a2 : List Char), (∀ ch ∈ a2, ch ≠ '\"') →
    ∀ (r1 r2 : List Char), a1 ++ '\"' :: r1 = a2 ++ '\"' :: r2 → a1 = a2 ∧ r1 = r2 := by
  intro a1
  induction a1 with
  | nil =>
    intro _ a2 h2 r1 r2 heq
    cases a2 with
    | nil =>
      simp only [List.nil_append] at heq
      injection heq with _ hr
      exact ⟨rfl, hr⟩
    | cons b bs =>
      simp only [List.nil_append, List.cons_append] at heq
      injection heq with hb _
      exact absurd hb.symm (h2 b (by simp))
  | cons a as ih =>
    intro h1 a2 h2 r1 r2 heq
    cases a2 with
    | nil =>
      simp only [List.cons_append, List.nil_append] at heq
      injection heq with hb _
      exact absurd hb (h1 a (by simp))
    | cons b bs =>
      simp only [List.cons_append] at heq
      injection heq with hb htail
      obtain ⟨hbody, hrest⟩ := ih (fun ch hch => h1 ch (by simp [hch])) bs
        (fun ch hch => h2 ch (by simp [hch])) r1 r2 htail
      exact ⟨by rw [hb, hbody], hrest⟩

theorem encodeJsonStringList_append_inj :
    ∀ (l1 : List (List Char)), (∀ a ∈ l1, ∀ ch ∈ a, ch ≠ '\"') →
    ∀ (l2 : List (List Char)), (∀ a ∈ l2, ∀ ch ∈ a, ch ≠ '\"') →
    ∀ (r1 r2 : List Char),
      encodeJsonStringList l1 ++ ']' :: r1 = encodeJsonStringList l2 ++ ']' :: r2 →
      l1 = l2 ∧ r1 = r2 := by
  intro l1
  induction l1 with
  | nil =>
    intro _ l2 h2 r1 r2 heq
    cases l2 with
    | nil =>
      simp only [encodeJsonStringList, List.nil_append] at heq
      injection heq with _ hr
      exact ⟨rfl, hr⟩
    | cons b bs =>
      exfalso
      cases bs <;>
        · simp only [encodeJsonStringList, List.nil_append, List.cons_append] at heq
          injection heq with hb _
          exact absurd hb (by decide)
  | cons a tail ih =>
    intro h1 l2 h2 r1 r2 heq
    cases l2 with
    | nil =>
      exfalso
      cases tail <;>
        · simp only [encodeJsonStringList, List.nil_append, List.cons_append] at heq
          injection heq with hb _
          exact absurd hb (by decide)
    | cons b bs =>
      cases tail with
      | nil =>
        cases bs with
        | nil =>
          simp only [encodeJsonStringList, List.cons_append, List.append_assoc,
            List.singleton_append] at heq
          injection heq with _ htail
          obtain ⟨hbody, hrest⟩ := quote_body_inj a (h1 a (by simp)) b (h2 b (by simp))
            (']' :: r1) (']' :: r2) htail
          injection hrest with _ hr
          exact ⟨by rw [hbody], hr⟩
        | cons c cs =>
          exfalso
          simp only [encodeJsonStringList, List.cons_append, List.append_assoc,
            List.singleton_append] at heq
          injection heq with _ htail
          have htail' : a ++ '\"' :: (']' :: r1)
              = b ++ '\"' :: (',' :: (encodeJsonStringList (c :: cs) ++ ']' :: r2)) := by
            simpa using htail
          obtain ⟨_, hrest⟩ := quote_body_inj a (h1 a (by simp)) b (h2 b (by simp)) _ _ htail'
          injection hrest with hch _
          exact absurd hch (by decide)
      | cons a2 tail2 =>
        cases bs with
        | nil =>
          exfalso
          simp only [encodeJsonStringList, List.cons_append, List.append_assoc,
            List.singleton_append] at heq
          injection heq with _ htail
          have htail' : a ++ '\"' :: (',' :: (encodeJsonStringList (a2 :: tail2) ++ ']' :: r1))
              = b ++ '\"' :: (']' :: r2) := by
            simpa using htail
          obtain ⟨_, hrest⟩ := quote_body_inj a (h1 a (by simp)) b (h2 b (by simp)) _ _ htail'
          injection hrest with hch _
          exact absurd hch (by decide)
        | cons c cs =>
          simp only [encodeJsonStringList, List.cons_append, List.append_assoc,
            List.singleton_append] at heq
          injection heq with _ htail
          have htail' : a ++ '\"' :: (',' :: (encodeJsonStringList (a2 :: tail2) ++ ']' :: r1))
              = b ++ '\"' :: (',' :: (encodeJsonStringList (c :: cs) ++ ']' :: r2)) := by
            simpa using htail
          obtain ⟨hbody, hrest⟩ := quote_body_inj a (h1 a (by simp)) b (h2 b (by simp)) _ _
            htail'
          injection hrest with _ hrest'
          obtain ⟨hlist, hr⟩ := ih (fun x hx ch hch => h1 x (by simp [hx]) ch hch) (c :: cs)
            (fun x hx ch hch => h2 x (by simp [hx]) ch hch) r1 r2 hrest'
          exact ⟨by rw [hbody, hlist], hr⟩

theorem mem_sortedKeys {α : Type} (d : List (String × α)) (k : String) :
    k ∈ sortedKeys d ↔ k ∈ d.map Prod.fst := by
  unfold sortedKeys
  exact (List.perm_insertionSort (· ≤ ·) (d.map Prod.fst)).mem_iff

theorem sortedKeys_eq_iff {α β : Type} (d1 : List (String × α)) (d2 : List (String × β))
    (h1 : (d1.map Prod.fst).Nodup) (h2 : (d2.map Prod.fst).Nodup) :
    sortedKeys d1 = sortedKeys d2 ↔ ∀ k, k ∈ d1.map Prod.fst ↔ k ∈ d2.map Prod.fst := by
  constructor
  · intro heq k
    rw [← mem_sortedKeys, ← mem_sortedKeys, heq]
  · intro hsets
    have hperm : List.Perm (d1.map Prod.fst) (d2.map Prod.fst) :=
      (List.perm_ext_iff_of_nodup h1 h2).mpr hsets
    refine List.eq_of_perm_of_sorted ?_ (List.sorted_insertionSort _ _)
      (List.sorted_insertionSort _ _)
    exact ((List.perm_insertionSort _ _).trans hperm).trans
      (List.perm_insertionSort _ _).symm

theorem jsonPlain_no_quote {α : Type} (d : List (String × α))
    (hp : ∀ k ∈ d.map Prod.fst, jsonPlainString k = true) :
    ∀ a ∈ (sortedKeys d).map String.data, ∀ ch ∈ a, ch ≠ '\"' := by
  intro a ha ch hch
  obtain ⟨s, hs, hsa⟩ := List.mem_map.mp ha
  have hmem : s ∈ d.map Prod.fst := (mem_sortedKeys d s).mp hs
  have hplain := hp s hmem
  unfold jsonPlainString at hplain
  rw [List.all_eq_true] at hplain
  have := hplain ch (by rw [hsa]; exact hch)
  unfold jsonPlainChar at this
  exact (of_decide_eq_true this).1

/-- C3.  Two country/location mappings produce the same structural
fingerprint exactly when they have the same set of active country codes
and the same set of known location ids (for JSON-plain keys with unique
dictionary keys); in particular the fingerprint reads nothing but those
two key sets, so changing only quantities never changes it and changing
the active-country set always does. -/
theorem mapping_hash_eq_iff_key_sets_eq (ac1 ac2 : List (String × CountryInfo))
    (lm1 lm2 : List (String × LocationEntry))
    (hnd1 : (ac1.map Prod.fst).Nodup) (hnd2 : (ac2.map Prod.fst).Nodup)
    (hnd3 : (lm1.map Prod.fst).Nodup) (hnd4 : (lm2.map Prod.fst).Nodup)
    (hp1 : ∀ k ∈ ac1.map Prod.fst, jsonPlainString k = true)
    (hp2 : ∀ k ∈ ac2.map Prod.fst, jsonPlainString k = true)
    (hp3 : ∀ k ∈ lm1.map Prod.fst, jsonPlainString k = true)
    (hp4 : ∀ k ∈ lm2.map Prod.fst, jsonPlainString k = true) :
    generateMappingHash ac1 lm1 = generateMappingHash ac2 lm2
      ↔ ((∀ k, k ∈ ac1.map Prod.fst ↔ k ∈ ac2.map Prod.fst)
        ∧ (∀ k, k ∈ lm1.map Prod.fst ↔ k ∈ lm2.map Prod.fst)) := by
  constructor
  · intro heq
    unfold generateMappingHash at heq
    simp only [List.cons_append, List.append_assoc, List.nil_append] at heq
    simp only [List.cons.injEq, eq_self_iff_true, true_and, List.nil_append] at heq
    obtain ⟨hc, hrest⟩ := encodeJsonStringList_append_inj
      ((sortedKeys ac1).map String.data) (jsonPlain_no_quote ac1 hp1)
      ((sortedKeys ac2).map String.data) (jsonPlain_no_quote ac2 hp2) _ _ heq
    simp only [List.cons.injEq, eq_self_iff_true, true_and, List.nil_append] at hrest
    obtain ⟨hl, _⟩ := encodeJsonStringList_append_inj
      ((sortedKeys lm1).map String.data) (jsonPlain_no_quote lm1 hp3)
      ((sortedKeys lm2).map String.data) (jsonPlain_no_quote lm2 hp4) _ _ hrest
    have hdatainj : Function.Injective String.data := fun s t h => String.ext h
    have hc' : sortedKeys ac1 = sortedKeys ac2 :=
      List.map_injective_iff.mpr hdatainj hc
    have hl' : sortedKeys lm1 = sortedKeys lm2 :=
      List.map_injective_iff.mpr hdatainj hl
    exact ⟨(sortedKeys_eq_iff ac1 ac2 hnd1 hnd2).mp hc',
      (sortedKeys_eq_iff lm1 lm2 hnd3 hnd4).mp hl'⟩
  · rintro ⟨hcset, hlset⟩
    have hc' : sortedKeys ac1 = sortedKeys ac2 :=
      (sortedKeys_eq_iff ac1 ac2 hnd1 hnd2).mpr hcset
    have hl' : sortedKeys lm1 = sortedKeys lm2 :=
      (sortedKeys_eq_iff lm1 lm2 hnd3 hnd4).mpr hlset
    unfold generateMappingHash
    rw [hc', hl']

/-! ## FeedWriter lemmas (C6) -/

theorem mem_getCurrentCountries_aux (validationEnabled : Bool)
    (variants : List CountryVariant) :
    ∀ (acc : List String) (c : String),
      c ∈ variants.foldl
        (fun acc v =>
          if feedEligible validationEnabled v ∧ v.country_code ∉ acc then
            acc ++ [v.country_code]
          else acc) acc
      ↔ c ∈ acc ∨ ∃ v ∈ variants, feedEligible validationEnabled v ∧ v.country_code = c := by
  induction variants with
  | nil => intro acc c; simp
  | cons v rest ih =>
    intro acc c
    simp only [List.foldl_cons]
    by_cases hcond : feedEligible validationEnabled v ∧ v.country_code ∉ acc
    · rw [if_pos hcond, ih (acc ++ [v.country_code]) c]
      constructor
      · rintro (hmem | ⟨w, hw, hx⟩)
        · rcases List.mem_append.mp hmem with h | h
          · exact Or.inl h
          · simp only [List.mem_singleton] at h
            exact Or.inr ⟨v, by simp, hcond.1, h.symm⟩
        · exact Or.inr ⟨w, by simp [hw], hx⟩
      · rintro (hmem | ⟨w, hw, helig, hcode⟩)
        · exact Or.inl (List.mem_append.mpr (Or.inl hmem))
        · rcases List.mem_cons.mp hw with h | h
          · subst h
            exact Or.inl (List.mem_append.mpr (Or.inr (by simp [hcode])))
          · exact Or.inr ⟨w, h, helig, hcode⟩
    · rw [if_neg hcond, ih acc c]
      constructor
      · rintro (hmem | ⟨w, hw, hx⟩)
        · exact Or.inl hmem
        · exact Or.inr ⟨w, by simp [hw], hx⟩
      · rintro (hmem | ⟨w, hw, helig, hcode⟩)
        · exact Or.inl hmem
        · rcases List.mem_cons.mp hw with h | h
          · subst h
            rcases not_and_or.mp hcond with h' | h'
            · exact absurd helig h'
            · rw [not_not] at h'
              exact Or.inl (hcode ▸ h')
          · exact Or.inr ⟨w, h, helig, hcode⟩

theorem mem_getCurrentCountries (validationEnabled : Bool)
    (variants : List CountryVariant) (c : String) :
    c ∈ getCurrentCountries validationEnabled variants
      ↔ ∃ v ∈ variants, feedEligible validationEnabled v ∧ v.country_code = c := by
  unfold getCurrentCountries
  rw [mem_getCurrentCountries_aux validationEnabled variants [] c]
  simp

theorem assocFind_setFold {α : Type} (F : String → α) :
    ∀ (cs : List String) (fs : List (String × α)) (c : String),
      assocFind (cs.foldl (fun fs c' => assocSet fs c' (F c')) fs) c
        = if c ∈ cs then some (F c) else assocFind fs c := by
  intro cs
  induction cs with
  | nil => intro fs c; simp
  | cons c' rest ih =>
    intro fs c
    simp only [List.foldl_cons]
    rw [ih (assocSet fs c' (F c')) c]
    by_cases hc : c ∈ rest
    · simp [hc]
    · by_cases hcc : c' = c
      · subst hcc
        simp [hc, assocFind_assocSet]
      · have : ¬c = c' := fun h => hcc h.symm
        simp [hc, this, assocFind_assocSet, hcc]

theorem assocFind_filter_none {α : Type} (P : String × α → Bool)
    (l : List (String × α)) (c : String) (h : ∀ v : α, P (c, v) = false) :
    assocFind (l.filter P) c = none := by
  induction l with
  | nil => simp [assocFind]
  | cons p rest ih =>
    obtain ⟨pk, pv⟩ := p
    by_cases hP : P (pk, pv)
    · rw [List.filter_cons_of_pos hP]
      have hpk : pk ≠ c := by
        intro he
        rw [he] at hP
        rw [h pv] at hP
        cases hP
      simp only [assocFind, if_neg hpk]
      exact ih
    · rw [List.filter_cons_of_neg hP]
      exact ih

theorem incrUpdate_preserve_other (validationEnabled : Bool)
    (newVariants changedVariants : List CountryVariant) :
    ∀ (cs : List String) (fs : List (String × List FeedRow)) (c : String), c ∉ cs →
      assocFind
        (cs.foldl
          (fun fs c' =>
            match updateCountryFeedStreaming validationEnabled newVariants changedVariants
                c' (assocFind fs c') with
            | some rows => assocSet fs c' rows
            | none => fs) fs) c
        = assocFind fs c := by
  intro cs
  induction cs with
  | nil => intro fs c _; rfl
  | cons c' rest ih =>
    intro fs c hc
    have hcc : c' ≠ c := fun h => hc (by simp [h])
    have hcr : c ∉ rest := fun h => hc (by simp [h])
    simp only [List.foldl_cons]
    cases hm : updateCountryFeedStreaming validationEnabled newVariants changedVariants
        c' (assocFind fs c') with
    | some rows =>
      rw [ih (assocSet fs c' rows) c hcr, assocFind_assocSet, if_neg hcc]
    | none =>
      rw [ih fs c hcr]

theorem incrUpdate_preserve_some (validationEnabled : Bool)
    (newVariants changedVariants : List CountryVariant) :
    ∀ (cs : List String) (fs : List (String × List FeedRow)) (c : String),
      assocFind fs c ≠ none →
      assocFind
        (cs.foldl
          (fun fs c' =>
            match updateCountryFeedStreaming validationEnabled newVariants changedVariants
                c' (assocFind fs c') with
            | some rows => assocSet fs c' rows
            | none => fs) fs) c
        ≠ none := by
  intro cs
  induction cs with
  | nil => intro fs c h; exact h
  | cons c' rest ih =>
    intro fs c h
    simp only [List.foldl_cons]
    cases hm : updateCountryFeedStreaming validationEnabled newVariants changedVariants
        c' (assocFind fs c') with
    | some rows =>
      refine ih (assocSet fs c' rows) c ?_
      rw [assocFind_assocSet]
      by_cases hcc : c' = c <;> simp [hcc, h]
    | none =>
      exact ih fs c h

/-- C6 (amended).  FULL mode on a non-empty, fully-eligible variant set
writes exactly one feed per country present in the set and removes every
parseable country feed whose country is absent (an empty set returns
before cleanup — see the counterexample); INCREMENTAL mode never deletes
a feed file and leaves the files of countries with no new or changed
variants untouched. -/
theorem feed_writer_full_and_incremental_frame (validationEnabled : Bool)
    (variants newVariants changedVariants : List CountryVariant)
    (files : List (String × List FeedRow)) (c : String) :
    (variants ≠ [] → (∀ v ∈ variants, feedEligible validationEnabled v) →
      ((∃ v ∈ variants, v.country_code = c) →
        assocFind (createCountryFeedsFull validationEnabled variants files).2 c
          = some (fullFeedRows validationEnabled variants c))
      ∧ (isCountryCode c → (∀ v ∈ variants, v.country_code ≠ c) →
        assocFind (createCountryFeedsFull validationEnabled variants files).2 c = none)
      ∧ (c ∈ (createCountryFeedsFull validationEnabled variants files).1 ↔
          ∃ v ∈ variants, v.country_code = c))
    ∧ ((∀ v ∈ newVariants ++ changedVariants, v.country_code ≠ c) →
      assocFind
        (updateCountryFeedsIncremental validationEnabled newVariants changedVariants files)
        c = assocFind files c)
    ∧ (assocFind files c ≠ none →
      assocFind
        (updateCountryFeedsIncremental validationEnabled newVariants changedVariants files)
        c ≠ none) := by
  refine ⟨?_, ?_, ?_⟩
  · intro hne hall
    have hfull : createCountryFeedsFull validationEnabled variants files
        = (getCurrentCountries validationEnabled variants,
           (getCurrentCountries validationEnabled variants).foldl
             (fun fs c' => assocSet fs c' (fullFeedRows validationEnabled variants c'))
             (cleanupOrphanedCountryFiles (getCurrentCountries validationEnabled variants)
               files)) := by
      unfold createCountryFeedsFull
      rw [if_neg hne]
    have hmemcur : ∀ c', c' ∈ getCurrentCountries validationEnabled variants ↔
        ∃ v ∈ variants, v.country_code = c' := by
      intro c'
      rw [mem_getCurrentCountries]
      constructor
      · rintro ⟨v, hv, _, hc⟩
        exact ⟨v, hv, hc⟩
      · rintro ⟨v, hv, hc⟩
        exact ⟨v, hv, hall v hv, hc⟩
    refine ⟨?_, ?_, ?_⟩
    · intro hex
      rw [hfull]
      simp only
      rw [assocFind_setFold (fullFeedRows validationEnabled variants)]
      rw [if_pos ((hmemcur c).mpr hex)]
    · intro hcc hno
      have hnotmem : c ∉ getCurrentCountries validationEnabled variants := by
        intro hmem
        obtain ⟨v, hv, hc⟩ := (hmemcur c).mp hmem
        exact hno v hv hc
      rw [hfull]
      simp only
      rw [assocFind_setFold (fullFeedRows validationEnabled variants), if_neg hnotmem]
      unfold cleanupOrphanedCountryFiles
      refine assocFind_filter_none _ files c ?_
      intro v
      simp [hcc, hnotmem]
    · rw [hfull]
      exact hmemcur c
  · intro hno
    unfold updateCountryFeedsIncremental
    by_cases hb : newVariants = [] ∧ changedVariants = []
    · rw [if_pos hb]
    · rw [if_neg hb]
      refine incrUpdate_preserve_other validationEnabled newVariants changedVariants _ files
        c ?_
      intro hmem
      obtain ⟨v, hv, _, hc⟩ :=
        (mem_getCurrentCountries validationEnabled (newVariants ++ changedVariants) c).mp hmem
      exact hno v hv hc
  · intro hsome
    unfold updateCountryFeedsIncremental
    by_cases hb : newVariants = [] ∧ changedVariants = []
    · rw [if_pos hb]
      exact hsome
    · rw [if_neg hb]
      exact incrUpdate_preserve_some validationEnabled newVariants changedVariants _ files
        c hsome

/-! ## Orchestrator checkpoint theorem (C7) -/

theorem processVariantsStep_checkpoint (validationEnabled isFull : Bool)
    (variants : List CountryVariant) (st : OrchestratorState) (ts : String) :
    (processVariantsStep validationEnabled isFull variants st ts).2.checkpoint
      = st.checkpoint := by
  unfold processVariantsStep
  cases isFull
  · simp only [Bool.false_eq_true, if_false]
    by_cases hd : (detectStockChanges st.variantStates variants).1 = []
      ∧ (detectStockChanges st.variantStates variants).2 = []
    · rw [if_pos hd]
    · rw [if_neg hd]
  · simp

/-- C7.  The sync checkpoint is committed only by runs that got past the
write-or-skip point: whenever a smart or full run ends in an error, the
persisted checkpoint is exactly what it was before the run. -/
theorem checkpoint_saved_only_after_output_point (env : SmartRunEnv)
    (validationEnabled : Bool) (st : OrchestratorState) (now : Int) (ts : String) :
    (∀ e, (runSmartSyncWithDetection env validationEnabled st now ts).2 = .error e →
      (runSmartSyncWithDetection env validationEnabled st now ts).1.checkpoint
        = st.checkpoint)
    ∧ (∀ e, (runFullSync env validationEnabled st now ts).2 = .error e →
      (runFullSync env validationEnabled st now ts).1.checkpoint = st.checkpoint) := by
  obtain ⟨cfg, mp, ft, up⟩ := env
  constructor <;> intro e herr
  · cases cfg with
    | error e' => rfl
    | ok u =>
      cases mp with
      | error e' => rfl
      | ok mpv =>
        cases ft with
        | error e' => rfl
        | ok variants =>
          by_cases hv : variants = []
          · simp [runSmartSyncWithDetection, hv] at herr
          · cases up with
            | error e' =>
              simp only [runSmartSyncWithDetection, if_neg hv]
              exact processVariantsStep_checkpoint validationEnabled _ variants st ts
            | ok n => simp [runSmartSyncWithDetection, hv] at herr
  · cases cfg with
    | error e' => rfl
    | ok u =>
      cases mp with
      | error e' => rfl
      | ok mpv =>
        cases ft with
        | error e' => rfl
        | ok variants =>
          by_cases hv : variants = []
          · simp [runFullSync, hv] at herr
          · simp [runFullSync, hv] at herr

/-! ## Counterexamples and witnesses -/

/-- C1 counterexample (the claim as stated is false): the projection
emits a `(variant, country)` row for the second sample variant in `US`
even though that variant has zero serving locations (indeed zero
inventory facts) in `US` — `US` is a target country only because the
first variant has stock there. -/
theorem build_country_variants_zero_serving_emitted :
    sampleEmittedVariant ∈
      buildCountryVariantsFromBulk sampleVariants sampleInventoryLevels sampleActive
        sampleLocMap
    ∧ servingFactCount sampleInventoryLevels sampleLocMap
        "gid://shopify/ProductVariant/2" "US" = 0 := by
  constructor
  · decide
  · decide

/-- C1 witness: the amended theorem applied to the concretely emitted
variant. -/
theorem build_country_variants_active_and_stocked_witness :
    (assocFind sampleActive sampleEmittedVariant.country_code).isSome
    ∧ ∃ variantGid,
        assocQty (buildCountryInventory sampleInventoryLevels sampleActive sampleLocMap)
          (variantGid, sampleEmittedVariant.country_code) > 0 :=
  build_country_variants_active_and_stocked sampleVariants sampleInventoryLevels
    sampleActive sampleLocMap sampleEmittedVariant (by decide)

/-- C2 witness: the partition theorem applied to a concrete one-element
run against a concrete persisted state. -/
theorem detect_stock_changes_partitions_witness :
    sampleCountryVariant ∈ [sampleCountryVariant] ↔
      sampleCountryVariant ∈ (detectStockChanges sampleStates [sampleCountryVariant]).1
      ∨ sampleCountryVariant ∈ (detectStockChanges sampleStates [sampleCountryVariant]).2
      ∨ sampleCountryVariant ∈ unchangedVariants sampleStates [sampleCountryVariant] :=
  (detect_stock_changes_partitions sampleStates [sampleCountryVariant]
    (by decide) (by decide)).2.1 sampleCountryVariant

/-- C3 witness: two mappings with the same country and location key sets
but different country names and market ids have the same fingerprint. -/
theorem mapping_hash_eq_iff_key_sets_eq_witness :
    generateMappingHash sampleActive sampleLocMap
      = generateMappingHash [("US", ⟨"USA", "gid://shopify/Market/2"⟩)] sampleLocMap :=
  (mapping_hash_eq_iff_key_sets_eq sampleActive
    [("US", ⟨"USA", "gid://shopify/Market/2"⟩)] sampleLocMap sampleLocMap
    (by decide) (by decide) (by decide) (by decide)
    (by decide) (by decide) (by decide) (by decide)).mpr
    ⟨fun k => Iff.rfl, fun k => Iff.rfl⟩

/-- C4 counterexample (the claim as stated is false for a line with
invalid encoding): with the undecodable line at position 2, the loader
returns nothing at all instead of the records of the other, well-formed
lines. -/
theorem load_bulk_jsonl_undecodable_line_drops_all :
    loadProductsFromBulkJsonl sampleBadLines sampleActive sampleLocMap = []
    ∧ loadProductsFromBulkJsonl sampleGoodLines sampleActive sampleLocMap ≠ [] := by
  constructor
  · decide
  · decide

/-- C4 witness: the amended theorem applied to a concrete stream. -/
theorem load_bulk_jsonl_malformed_line_tolerance_witness :
    loadProductsFromBulkJsonl sampleBadLines sampleActive sampleLocMap = [] :=
  load_bulk_jsonl_malformed_line_tolerance.2 sampleBadLines sampleActive sampleLocMap
    (by decide)

/-- C5 counterexample (the claim as stated is false): with facts `+5`
and `-3` at a mapped `US`-serving location, the code attributes `5`
(negative facts are skipped) while the claimed sum over all serving
facts is `2`. -/
theorem attributed_quantity_ignores_negative_facts :
    ((buildCountryVariantsFromBulk
        [("gid://shopify/ProductVariant/1", sampleVariantRecord)]
        sampleInventoryLevelsNeg sampleActive sampleLocMap).map
      (fun cv => cv.inventory_quantity)) = [5]
    ∧ specAttributedQty sampleInventoryLevelsNeg sampleLocMap
        "gid://shopify/ProductVariant/1" "US" = 2 := by
  constructor
  · decide
  · decide

/-- C5 witness: the amended attribution equation at the concrete sample
inventory. -/
theorem attributed_quantity_positive_sum_witness :
    assocQty (buildCountryInventory sampleInventoryLevelsNeg sampleActive sampleLocMap)
        ("gid://shopify/ProductVariant/1", "US")
      = positiveAttributedQty sampleInventoryLevelsNeg sampleLocMap sampleActive
          "gid://shopify/ProductVariant/1" "US" :=
  (attributed_quantity_positive_sum sampleInventoryLevelsNeg sampleActive sampleLocMap
    (by decide) (by decide) "gid://shopify/ProductVariant/1" "US").1

/-- C6 counterexample (the claim as stated is false): a FULL run over an
empty CountryVariant set returns before orphan cleanup, so the feed file
of the now-absent country `US` survives. -/
theorem full_feed_empty_input_keeps_orphans :
    (createCountryFeedsFull true [] sampleFiles).2 = sampleFiles
    ∧ isCountryCode "US" = true
    ∧ assocFind (createCountryFeedsFull true [] sampleFiles).2 "US" ≠ none := by
  refine ⟨rfl, by decide, ?_⟩
  decide

/-- C6 witness: the amended frame theorem applied to a concrete
one-variant FULL run. -/
theorem feed_writer_full_and_incremental_frame_witness :
    assocFind (createCountryFeedsFull true [sampleCountryVariant] sampleFiles).2 "US"
      = some (fullFeedRows true [sampleCountryVariant] "US") :=
  ((feed_writer_full_and_incremental_frame true [sampleCountryVariant] [] [] sampleFiles
      "US").1 (by decide) (by decide)).1 ⟨sampleCountryVariant, by decide, by decide⟩

/-- C7 witness: a run whose configuration phase raises leaves the
previously stored checkpoint untouched. -/
theorem checkpoint_saved_only_after_output_point_witness :
    (runSmartSyncWithDetection sampleFailEnv true sampleOrchState 200 "t1").1.checkpoint
      = sampleOrchState.checkpoint :=
  (checkpoint_saved_only_after_output_point sampleFailEnv true sampleOrchState 200 "t1").1
    "Configuration validation failed" rfl

/-- C9 witness: the same logical variant-country row in two runs with
different quantities and timestamps maps to the same Google composite
identifier. -/
theorem feed_row_identifier_deterministic_witness :
    googleCompositeRowId sampleCountryVariant
      = googleCompositeRowId sampleCountryVariantRestock :=
  (feed_row_identifier_deterministic sampleCountryVariant
    sampleCountryVariantRestock).2.1 rfl rfl

/-- C10 witness: with smart mapping disabled and a previous checkpoint
at time 42, the strategy decision is INCREMENTAL. -/
theorem smart_mapping_disabled_never_changes_witness :
    determineSmartSyncStrategy
      (getMappingWithChangeDetection false "freshhash" (some "oldhash")).1 (some 42)
      = (false, some 42) :=
  (smart_mapping_disabled_never_changes "freshhash" (some "oldhash") (some 42)).2 42 rfl

end FeedSync
